import Mathlib

/-!
# Blog application server (GraphQL): resolvers, identity middleware, image upload

A shallow embedding of `src/graphql/resolvers.js`, `src/middlewares/auth.js`,
`src/util/file.js`, the `/post-image` route and error handler of `src/app.js`, and the
post controllers of `src/controllers/feed.js`.

* The two MongoDB collections are lists of documents; a query is a function of the
  list, a write returns the new list.  Every query or write is also appended to
  `World.trace`, so that "no store access" is an observable fact of a run.
* `clearImage` schedules an `fs.unlink`; the scheduled paths are `World.unlinked`.
* A resolver is a function `World → Outcome α`: the value or thrown error, and the
  world it leaves behind (effects made before a `throw` persist, as in JavaScript).
* Mongoose `ObjectId`s are compared through `toString()` in the source and are
  strings here; the `CastError` of an ill-formed id string is store behaviour and
  is outside of this model.
-/

namespace BlogApp

deriving instance DecidableEq for Except

/-! ## Documents -/

abbrev ObjectId := String

/-- Modelled from the spec: `models/user.js` is not part of the sources. Fields after
spec section 3 (User) and the `User` type of `graphql/schema.js`. -/
structure User where
  _id : ObjectId
  email : String
  password : String
  name : String
  status : String
  posts : List ObjectId
deriving DecidableEq, Repr

/-- Modelled from the spec: `models/post.js` is not part of the sources. Fields after
spec section 3 (Post) and the `Post` type of `graphql/schema.js`; `creator` is stored
as a reference, timestamps are milliseconds. -/
structure Post where
  _id : ObjectId
  title : String
  content : String
  imageUrl : String
  creator : ObjectId
  createdAt : Nat
  updatedAt : Nat
deriving DecidableEq, Repr

/-- One element of `error.data`: `{ message: ... }`. -/
structure FieldError where
  message : String
deriving DecidableEq, Repr

/-- A JavaScript `Error` with the ad hoc fields the application attaches. A field that
was never assigned is `none` (`undefined`). -/
structure JsError where
  message : String
  code : Option Nat := none
  statusCode : Option Nat := none
  data : Option (List FieldError) := none
deriving DecidableEq, Repr

/-- The annotations the identity middleware leaves on the request: `req.isAuth` and
`req.userId` (`none` when never assigned). -/
structure Req where
  isAuth : Bool
  userId : Option String
deriving DecidableEq, Repr

/-! ## Store and effects -/

/-- The store operations a resolver can issue, as recorded in the trace. -/
inductive StoreOp where
  | userFindById (id : Option ObjectId)
  | userFindOne (email : String)
  | userInsert (id : ObjectId)
  | userSave (id : ObjectId)
  | postFindById (id : ObjectId)
  | postCount
  | postFind
  | postInsert (id : ObjectId)
  | postSave (id : ObjectId)
  | postRemove (id : ObjectId)
  | populate (ids : List ObjectId)
deriving DecidableEq, Repr

structure World where
  users : List User
  posts : List Post
  /-- Paths handed to `clearImage`, oldest first. -/
  unlinked : List String
  /-- Store operations issued so far, oldest first. -/
  trace : List StoreOp
deriving DecidableEq, Repr

/-- What a call leaves behind: the returned value or the thrown error, and the world. -/
structure Outcome (α : Type) where
  result : Except JsError α
  world : World

def World.log (w : World) (op : StoreOp) : World :=
  { w with trace := w.trace ++ [op] }

/-- Replace the first element satisfying `p` (`updateOne`). -/
def updateOne {α : Type} (p : α → Bool) (f : α → α) : List α → List α
  | [] => []
  | x :: xs => if p x then f x :: xs else x :: updateOne p f xs

/-- Remove the first element satisfying `p` (`findOneAndRemove`). -/
def removeOne {α : Type} (p : α → Bool) : List α → List α
  | [] => []
  | x :: xs => if p x then xs else x :: removeOne p xs

/-- `User.findById(id)`; `findById(undefined)` finds nothing. -/
def User.findById (users : List User) : Option ObjectId → Option User
  | none => none
  | some id => users.find? (fun u => u._id == id)

/-- `User.findOne({ email })`. -/
def User.findOne (users : List User) (email : String) : Option User :=
  users.find? (fun u => u.email == email)

/-- `user.save()` of a document that was read from the store. -/
def User.save (u : User) (users : List User) : List User :=
  updateOne (fun x => x._id == u._id) (fun _ => u) users

/-- `Post.findById(id)`. -/
def Post.findById (posts : List Post) (id : ObjectId) : Option Post :=
  posts.find? (fun p => p._id == id)

/-- `post.save()` of a document that was read from the store. -/
def Post.save (p : Post) (posts : List Post) : List Post :=
  updateOne (fun x => x._id == p._id) (fun _ => p) posts

/-- `Post.findByIdAndRemove(id)`. -/
def Post.findByIdAndRemove (posts : List Post) (id : ObjectId) : List Post :=
  removeOne (fun x => x._id == id) posts

/-- `user.posts.pull(postId)`: removes every occurrence. -/
def pull (ids : List ObjectId) (id : ObjectId) : List ObjectId :=
  ids.filter (fun x => x != id)

/-- `clearImage(filePath)` of `util/file.js`: schedules `fs.unlink` of the path
(resolved against the source directory); the callback only logs. -/
def clearImage (filePath : String) (w : World) : World :=
  { w with unlinked := w.unlinked ++ [filePath] }

/-! ## `validator` -/

/-- `validator.isEmpty(str)`. -/
def isEmpty (str : String) : Bool := str.length == 0

/-- The presentation selectors U+FE0F and U+FE0E, which `validator.isLength` does not
count (`str.match(/(\uFE0F|\uFE0E)/g)`). -/
def isVariationSelector (c : Char) : Bool := c.toNat == 0xFE0F || c.toNat == 0xFE0E

/-- The length `validator.isLength` compares: `str.length - presentationSequences.length
- surrogatePairs.length`. The UTF-16 length less the surrogate pairs is the number of
code points; every U+FE0F and U+FE0E is subtracted from it. -/
def validatorLength (str : String) : Nat :=
  str.length - (str.data.filter isVariationSelector).length

/-- `validator.isLength(str, { min })`. -/
def isLength (str : String) (min : Nat) : Bool := decide (min ≤ validatorLength str)

/-! ## GraphQL resolvers (`graphql/resolvers.js`) -/

structure PostInputData where
  title : String
  content : String
  imageUrl : String
deriving DecidableEq, Repr

/-- A post as a resolver returns it: `{ ...post._doc, _id, createdAt, updatedAt }`.
`creator` is the populated document, `none` when `populate` found no such user
(`null`). -/
structure PostView where
  _id : String
  title : String
  content : String
  imageUrl : String
  creator : Option User
  createdAt : Nat
  updatedAt : Nat
deriving DecidableEq, Repr

structure PostData where
  posts : List PostView
  totalPosts : Nat
deriving DecidableEq, Repr

def notAuthenticated : JsError := { message := "Not authenticated", code := some 401 }

def notAuthorized : JsError := { message := "Not authorized", code := some 403 }

def noPostFound : JsError := { message := "No post found", code := some 404 }

def noUserFound : JsError := { message := "No user found", code := some 404 }

/-- The `TypeError` of a property access on `null` or `undefined`; it has no `code`. -/
def typeError (what : String) : JsError :=
  { message := "Cannot read properties of " ++ what }

/-- The validation block shared by `createPost` and `updatePost`: the accumulated
`errors` array. -/
def postInputErrors (title content : String) : List FieldError :=
  (if isEmpty title || !isLength title 5 then [⟨"Title is invalid"⟩] else []) ++
  (if isEmpty content || !isLength content 5 then [⟨"Content is invalid"⟩] else [])

def invalidInput (errors : List FieldError) : JsError :=
  { message := "Invalid Input", code := some 422, data := some errors }

/-- `.populate("creator")` on one post: the referenced user, or `null`. -/
def populate (users : List User) (p : Post) : PostView :=
  { _id := p._id, title := p.title, content := p.content, imageUrl := p.imageUrl,
    creator := User.findById users (some p.creator),
    createdAt := p.createdAt, updatedAt := p.updatedAt }

namespace Resolvers

/-- `createPost({ postInput }, req)`. `now` is the clock and `newId` the identifier the
store assigns to the new document. -/
def createPost (now : Nat) (newId : ObjectId) (postInput : PostInputData) (req : Req)
    (w : World) : Outcome PostView :=
  if !req.isAuth then ⟨.error notAuthenticated, w⟩
  else
    let errors := postInputErrors postInput.title postInput.content
    if errors.length > 0 then ⟨.error (invalidInput errors), w⟩
    else
      let w1 := w.log (.userFindById req.userId)
      match User.findById w1.users req.userId with
      | none => ⟨.error { message := "Invalid user", code := some 401 }, w1⟩
      | some user =>
        let post : Post :=
          { _id := newId, title := postInput.title, content := postInput.content,
            imageUrl := postInput.imageUrl, creator := user._id,
            createdAt := now, updatedAt := now }
        let w2 := { w1 with posts := w1.posts ++ [post] }.log (.postInsert newId)
        let user1 := { user with posts := user.posts ++ [post._id] }
        let w3 := { w2 with users := User.save user1 w2.users }.log (.userSave user._id)
        ⟨.ok { _id := post._id, title := post.title, content := post.content,
               imageUrl := post.imageUrl, creator := some user1,
               createdAt := post.createdAt, updatedAt := post.updatedAt }, w3⟩

/-- The posts in the order of `.sort({ createdAt: -1 })`; posts created at the same
instant keep their store order. -/
def sortedPosts (posts : List Post) : List Post :=
  posts.insertionSort (fun a b => b.createdAt ≤ a.createdAt)

/-- `posts({ page }, req)`. `page` is the nullable GraphQL `Int`. -/
def posts (page : Option Int) (req : Req) (w : World) : Outcome PostData :=
  if !req.isAuth then ⟨.error notAuthenticated, w⟩
  else
    let page : Int := match page with
      | none => 1
      | some p => if p = 0 then 1 else p
    let perPage : Int := 2
    let w1 := w.log .postCount
    let totalPosts := w1.posts.length
    let w2 := w1.log .postFind
    let skip := (page - 1) * perPage
    if skip < 0 then ⟨.error { message := "Skip value must be non-negative" }, w2⟩
    else
      let found := ((sortedPosts w2.posts).drop skip.toNat).take perPage.toNat
      let w3 := w2.log (.populate (found.map (fun p => p.creator)))
      ⟨.ok { posts := found.map (populate w3.users), totalPosts := totalPosts }, w3⟩

/-- `post({ postId }, req)`. -/
def post (postId : ObjectId) (req : Req) (w : World) : Outcome PostView :=
  if !req.isAuth then ⟨.error notAuthenticated, w⟩
  else
    let w1 := w.log (.postFindById postId)
    match Post.findById w1.posts postId with
    | none => ⟨.error noPostFound, w1⟩
    | some p =>
      let w2 := w1.log (.populate [p.creator])
      ⟨.ok (populate w2.users p), w2⟩

/-- `updatePost({ postId, postInput }, req)`. `now` is the clock; Mongoose moves
`updatedAt` when the saved document was modified. -/
def updatePost (now : Nat) (postId : ObjectId) (postInput : PostInputData) (req : Req)
    (w : World) : Outcome PostView :=
  if !req.isAuth then ⟨.error notAuthenticated, w⟩
  else
    let w1 := w.log (.postFindById postId)
    match Post.findById w1.posts postId with
    | none => ⟨.error noPostFound, w1⟩
    | some p =>
      let w2 := w1.log (.populate [p.creator])
      -- `post.creator._id.toString() !== req.userId.toString()`
      match User.findById w2.users (some p.creator) with
      | none => ⟨.error (typeError "null (reading '_id')"), w2⟩
      | some creator =>
        match req.userId with
        | none => ⟨.error (typeError "undefined (reading 'toString')"), w2⟩
        | some userId =>
          if creator._id ≠ userId then ⟨.error notAuthorized, w2⟩
          else
            let errors := postInputErrors postInput.title postInput.content
            if errors.length > 0 then ⟨.error (invalidInput errors), w2⟩
            else
              let imageUrl :=
                if postInput.imageUrl ≠ "undefined" then postInput.imageUrl else p.imageUrl
              let modified :=
                postInput.title ≠ p.title ∨ postInput.content ≠ p.content ∨
                  imageUrl ≠ p.imageUrl
              let p1 : Post :=
                { p with title := postInput.title, content := postInput.content,
                         imageUrl := imageUrl,
                         updatedAt := if modified then now else p.updatedAt }
              let w3 := { w2 with posts := Post.save p1 w2.posts }.log (.postSave p._id)
              ⟨.ok { populate w3.users p1 with creator := some creator }, w3⟩

/-- `deletePost({ postId }, req)`. -/
def deletePost (postId : ObjectId) (req : Req) (w : World) : Outcome Bool :=
  if !req.isAuth then ⟨.error notAuthenticated, w⟩
  else
    let w1 := w.log (.postFindById postId)
    match Post.findById w1.posts postId with
    | none => ⟨.error noPostFound, w1⟩
    | some p =>
      -- `post.creator.toString() !== req.userId.toString()`
      match req.userId with
      | none => ⟨.error (typeError "undefined (reading 'toString')"), w1⟩
      | some userId =>
        if p.creator ≠ userId then ⟨.error notAuthorized, w1⟩
        else
          let w2 := clearImage p.imageUrl w1
          let w3 :=
            { w2 with posts := Post.findByIdAndRemove w2.posts postId }.log
              (.postRemove postId)
          let w4 := w3.log (.userFindById req.userId)
          match User.findById w4.users req.userId with
          | none => ⟨.error (typeError "null (reading 'posts')"), w4⟩
          | some user =>
            let user1 := { user with posts := pull user.posts postId }
            let w5 := { w4 with users := User.save user1 w4.users }.log (.userSave user._id)
            ⟨.ok true, w5⟩

/-- `user(args, req)`. -/
def user (req : Req) (w : World) : Outcome User :=
  if !req.isAuth then ⟨.error notAuthenticated, w⟩
  else
    let w1 := w.log (.userFindById req.userId)
    match User.findById w1.users req.userId with
    | none => ⟨.error noUserFound, w1⟩
    | some u => ⟨.ok u, w1⟩

/-- `updateStatus({ status }, req)`. -/
def updateStatus (status : String) (req : Req) (w : World) : Outcome User :=
  if !req.isAuth then ⟨.error notAuthenticated, w⟩
  else
    let w1 := w.log (.userFindById req.userId)
    match User.findById w1.users req.userId with
    | none => ⟨.error noUserFound, w1⟩
    | some u =>
      let u1 := { u with status := status }
      let w2 := { w1 with users := User.save u1 w1.users }.log (.userSave u._id)
      ⟨.ok u1, w2⟩

structure AuthData where
  token : String
  userId : String
deriving DecidableEq, Repr

/-- `login({ email, password })`. The libraries are parameters: `compare` is
`bcrypt.compare`, `sign payloadUserId payloadEmail secret expiresIn` is `jwt.sign` with
the seconds of `expiresIn`, and `JWT_SECRET` is `process.env.JWT_SECRET`. -/
def login (compare : String → String → Bool)
    (sign : String → String → Option String → Nat → Except JsError String)
    (JWT_SECRET : Option String) (email password : String) (w : World) :
    Outcome AuthData :=
  let w1 := w.log (.userFindOne email)
  match User.findOne w1.users email with
  | none => ⟨.error { message := "User not found", code := some 401 }, w1⟩
  | some u =>
    if !compare password u.password then
      ⟨.error { message := "Password is incorrect", code := some 401 }, w1⟩
    else
      match sign u._id u.email JWT_SECRET 3600 with
      | .error e => ⟨.error e, w1⟩
      | .ok token => ⟨.ok { token := token, userId := u._id }, w1⟩

end Resolvers

/-! ## Identity middleware (`middlewares/auth.js`) -/

/-- The decoded payload of a token. -/
structure JwtPayload where
  userId : Option String
  email : Option String
  iat : Nat
  exp : Nat
deriving DecidableEq, Repr

/-- The JavaScript `str.split(sep)` for a one-character separator, on code points. -/
def splitChars (sep : Char) : List Char → List (List Char)
  | [] => [[]]
  | c :: cs =>
    if c = sep then [] :: splitChars sep cs
    else
      match splitChars sep cs with
      | [] => [[c]]
      | f :: fs => (c :: f) :: fs

/-- The expression `authHeader.split(" ")[1]`; `none` is `undefined`. -/
def bearerToken (authHeader : String) : Option String :=
  ((splitChars ' ' authHeader.data)[1]?).map String.mk

/-- One run of a middleware: the annotated request and the arguments of its calls of
`next`, in order (`none` for a call without an error argument). -/
structure MiddlewareRun where
  req : Req
  next : List (Option JsError)
deriving DecidableEq, Repr

namespace Middlewares

/-- The exported middleware of `middlewares/auth.js`. `authHeader` is
`req.get("Authorization")` and `verify token secret` is `jwt.verify` on a string
token; `jwt.verify` throws on a token that is `undefined`. A thrown error that
leaves the middleware is the `error` result. -/
def auth (verify : String → String → Except JsError (Option JwtPayload))
    (authHeader : Option String) : Except JsError MiddlewareRun :=
  match authHeader with
  | none => .ok { req := { isAuth := false, userId := none }, next := [none] }
  | some authHeader =>
    if authHeader.length = 0 then
      .ok { req := { isAuth := false, userId := none }, next := [none] }
    else
      let token := bearerToken authHeader
      let verified : Except JsError (Option JwtPayload) :=
        match token with
        | none => .error { message := "jwt must be provided" }
        | some t => verify t "somesupersecretsecret"
      match verified with
      | .error _ => .ok { req := { isAuth := false, userId := none }, next := [none] }
      | .ok none => .ok { req := { isAuth := false, userId := none }, next := [none] }
      | .ok (some decodedToken) =>
        .ok { req := { isAuth := true, userId := decodedToken.userId }, next := [none] }

end Middlewares

/-! ## Image upload route and error handler (`app.js`) -/

/-- What the `/post-image` handler reads of the request: the middleware's flag,
`req.file.path` when a file was stored, and `req.body.oldPath`. -/
structure UploadRequest where
  isAuth : Bool
  file : Option String
  oldPath : Option String
deriving DecidableEq, Repr

/-- An HTTP response: `res.status(status).json({ message, filePath, data })`. -/
structure Response where
  status : Nat
  message : Option String
  filePath : Option String := none
  data : Option (List FieldError) := none
deriving DecidableEq, Repr

namespace App

/-- The handler of `app.put("/post-image", ...)`. -/
def postImage (req : UploadRequest) (w : World) : Outcome Response :=
  if !req.isAuth then ⟨.error notAuthenticated, w⟩
  else
    match req.file with
    | none => ⟨.ok { status := 200, message := some "No file provided" }, w⟩
    | some path =>
      let w1 :=
        match req.oldPath with
        | none => w
        | some oldPath => if oldPath.length = 0 then w else clearImage oldPath w
      ⟨.ok { status := 201, message := some "File stored", filePath := some path }, w1⟩

/-- The error handling middleware: `const status = error.statusCode || 500`. -/
def errorHandler (error : JsError) : Response :=
  let status :=
    match error.statusCode with
    | none => 500
    | some code => if code = 0 then 500 else code
  { status := status, message := some error.message, data := error.data }

/-- A `PUT /post-image` request through the handler and, when the handler throws,
the error handling middleware. -/
def putPostImage (req : UploadRequest) (w : World) : Response × World :=
  match postImage req w with
  | ⟨.ok res, w1⟩ => (res, w1)
  | ⟨.error e, w1⟩ => (errorHandler e, w1)

end App

/-! ## Token service (`jsonwebtoken`, `bcryptjs`) -/

namespace Jwt

/-- Decimal digits to a number; `none` when a character is not a digit. -/
def digits? (cs : List Char) : Option Nat :=
  if cs = [] then none
  else cs.foldl (fun acc c => acc.bind fun n =>
    if c.isDigit then some (10 * n + (c.toNat - '0'.toNat)) else none) (some 0)

/-- Modelled from the spec: section 4.1, the signature of a token body under a key.
An ideal signature: it determines the key and the body. -/
def signature (body secret : String) : String :=
  "HS256(" ++ secret ++ ";" ++ body ++ ")"

/-- Modelled from the spec: section 4.1 `issue`, the library call `jwt.sign`. The
token embeds `userId` and `email`, is valid for `expiresIn` seconds from `now`, and
is signed with `secret`; a missing or empty secret throws. -/
def sign (now : Nat) (userId email : String) (secret : Option String) (expiresIn : Nat) :
    Except JsError String :=
  match secret with
  | none => .error { message := "secretOrPrivateKey must have a value" }
  | some key =>
    if key.length = 0 then .error { message := "secretOrPrivateKey must have a value" }
    else
      let body := String.intercalate ","
        [Nat.repr now, Nat.repr (now + expiresIn), userId, email]
      .ok (body ++ "~" ++ signature body key)

/-- Modelled from the spec: section 4.1 `verify`, the library call `jwt.verify` at
time `now`. Malformed token, bad signature and expiry all throw. -/
def verify (now : Nat) (token secret : String) : Except JsError (Option JwtPayload) :=
  match splitChars '~' token.data with
  | [body, sig] =>
    if String.mk sig ≠ signature (String.mk body) secret then
      .error { message := "invalid signature" }
    else
      match splitChars ',' body with
      | iat :: exp :: userId :: email =>
        match digits? iat, digits? exp with
        | some iat, some exp =>
          if exp ≤ now then .error { message := "jwt expired" }
          else
            .ok (some { userId := some (String.mk userId),
                        email := some (String.intercalate "," (email.map String.mk)),
                        iat := iat, exp := exp })
        | _, _ => .error { message := "jwt malformed" }
      | _ => .error { message := "jwt malformed" }
  | _ => .error { message := "jwt malformed" }

end Jwt

namespace Bcrypt

/-- Modelled from the spec: section 4.3, the password hash (`bcrypt.hash` with cost
factor 12); an ideal hash, which determines the password and never equals it. -/
def hash (password : String) : String := "$2a$12$" ++ password

/-- The check `bcrypt.compare(password, hash)`. -/
def compare (password hashed : String) : Bool := hashed == hash password

end Bcrypt

/-! ## Account creation (`createUser` of `graphql/resolvers.js`) -/

structure UserInputData where
  email : String
  name : String
  password : String
deriving DecidableEq, Repr

namespace Resolvers

/-- The validation block of `createUser`: the accumulated `errors` array. `isEmail` is
`validator.isEmail`. -/
def userInputErrors (isEmail : String → Bool) (email password : String) : List FieldError :=
  (if !isEmail email then [⟨"Invalid Email"⟩] else []) ++
  (if isEmpty password || !isLength password 5 then [⟨"Password too short"⟩] else [])

/-- The document `new User({ email, name, password: hashedPassword })` as the store
holds it under the identifier `newId`, with the schema defaults of spec section 3:
status "I am new!" and no posts. -/
def newUser (hash : String → String) (newId : ObjectId) (userInput : UserInputData) : User :=
  { _id := newId, email := userInput.email, password := hash userInput.password,
    name := userInput.name, status := "I am new!", posts := [] }

/-- `createUser({ userInput }, req)`. The libraries are parameters: `isEmail` is
`validator.isEmail` and `hash password` is `bcrypt.hash(password, 12)`; `newId` is the
identifier the store assigns to the new document. -/
def createUser (isEmail : String → Bool) (hash : String → String) (newId : ObjectId)
    (userInput : UserInputData) (w : World) : Outcome User :=
  let errors := userInputErrors isEmail userInput.email userInput.password
  if errors.length > 0 then ⟨.error (invalidInput errors), w⟩
  else
    let w1 := w.log (.userFindOne userInput.email)
    match User.findOne w1.users userInput.email with
    | some _ => ⟨.error { message := "User already exists" }, w1⟩
    | none =>
      let user := newUser hash newId userInput
      let w2 := { w1 with users := w1.users ++ [user] }.log (.userInsert newId)
      ⟨.ok user, w2⟩

end Resolvers

/-! ## REST feed controllers (`controllers/feed.js`) -/

/-- What the feed controllers read of the request: `req.params.postId`, `req.userId`,
whether `validationResult(req)` is empty, `req.body.title`, `req.body.content`,
`req.body.image` and `req.file.path`. -/
structure FeedRequest where
  postId : ObjectId
  userId : Option String
  valid : Bool
  title : String
  content : String
  image : Option String
  file : Option String
deriving DecidableEq, Repr

/-- Modelled from the spec: `socket.js` is not part of the sources. An event emitted on
the "posts" channel, after spec section 6 (real-time channel). -/
inductive SocketEvent where
  | update (post : Post)
  | delete (postId : ObjectId)
deriving DecidableEq, Repr

/-- How a controller run ends: a response was sent, an error was handed to `next`, or
an error was thrown outside of the `try` block. -/
inductive FeedResult where
  | responded (status : Nat) (message : String)
  | next (error : JsError)
  | thrown (error : JsError)
deriving DecidableEq, Repr

structure FeedRun where
  result : FeedResult
  emitted : List SocketEvent
  world : World
deriving DecidableEq, Repr

namespace FeedController

/-- The `catch` block: `if (!err.statusCode) err.statusCode = 500; next(err)`. -/
def handOver (err : JsError) : FeedResult :=
  match err.statusCode with
  | none => .next { err with statusCode := some 500 }
  | some code => if code = 0 then .next { err with statusCode := some 500 } else .next err

def couldNotFindPost : JsError := { message := "Could not find post", statusCode := some 422 }

def notAuthorized : JsError := { message := "Not authorized", statusCode := some 403 }

/-- `exports.updatePost` of `controllers/feed.js`. -/
def updatePost (now : Nat) (req : FeedRequest) (w : World) : FeedRun :=
  if !req.valid then
    ⟨.thrown { message := "Validation failed, input data is incorrect",
               statusCode := some 422 }, [], w⟩
  else
    let imageUrl : Option String :=
      match req.file with
      | some path => some path
      | none => req.image
    match imageUrl with
    | none => ⟨.thrown { message := "No file picked", statusCode := some 422 }, [], w⟩
    | some imageUrl =>
      if imageUrl.length = 0 then
        ⟨.thrown { message := "No file picked", statusCode := some 422 }, [], w⟩
      else
        let w1 := w.log (.postFindById req.postId)
        match Post.findById w1.posts req.postId with
        | none => ⟨handOver couldNotFindPost, [], w1⟩
        | some p =>
          let w2 := w1.log (.populate [p.creator])
          match User.findById w2.users (some p.creator) with
          | none => ⟨handOver (typeError "null (reading '_id')"), [], w2⟩
          | some creator =>
            if some creator._id ≠ req.userId then ⟨handOver notAuthorized, [], w2⟩
            else
              let w3 := if imageUrl ≠ p.imageUrl then clearImage p.imageUrl w2 else w2
              let modified :=
                req.title ≠ p.title ∨ req.content ≠ p.content ∨ imageUrl ≠ p.imageUrl
              let p1 : Post :=
                { p with title := req.title, imageUrl := imageUrl, content := req.content,
                         updatedAt := if modified then now else p.updatedAt }
              let w4 := { w3 with posts := Post.save p1 w3.posts }.log (.postSave p._id)
              ⟨.responded 200 "Post updated successfully!", [.update p1], w4⟩

/-- `exports.deletePost` of `controllers/feed.js`. -/
def deletePost (req : FeedRequest) (w : World) : FeedRun :=
  let w1 := w.log (.postFindById req.postId)
  match Post.findById w1.posts req.postId with
  | none => ⟨handOver couldNotFindPost, [], w1⟩
  | some p =>
    if some p.creator ≠ req.userId then ⟨handOver notAuthorized, [], w1⟩
    else
      let w2 := clearImage p.imageUrl w1
      let w3 :=
        { w2 with posts := Post.findByIdAndRemove w2.posts req.postId }.log
          (.postRemove req.postId)
      let w4 := w3.log (.userFindById req.userId)
      match User.findById w4.users req.userId with
      | none => ⟨handOver (typeError "null (reading 'posts')"), [], w4⟩
      | some user =>
        let user1 := { user with posts := pull user.posts req.postId }
        let w5 := { w4 with users := User.save user1 w4.users }.log (.userSave user._id)
        ⟨.responded 200 "Deleted post.", [.delete req.postId], w5⟩

/-- `exports.getPost` of `controllers/feed.js`. -/
def getPost (req : FeedRequest) (w : World) : FeedRun :=
  let w1 := w.log (.postFindById req.postId)
  match Post.findById w1.posts req.postId with
  | none => ⟨handOver { message := "Post was not found", statusCode := some 404 }, [], w1⟩
  | some p => ⟨.responded 200 "Post fetched!", [], w1.log (.populate [p.creator])⟩

end FeedController

/-! ## Invariants of the store -/

/-- Referential consistency of the two collections: every stored post names as creator
a stored user whose post set holds the post's identifier, and every identifier in a
stored user's post set is that of a stored post created by this user. -/
def Consistent (w : World) : Prop :=
  (∀ p ∈ w.posts, ∃ u ∈ w.users, u._id = p.creator ∧ p._id ∈ u.posts) ∧
  (∀ u ∈ w.users, ∀ id ∈ u.posts, ∃ p ∈ w.posts, p._id = id ∧ p.creator = u._id)

/-- The key constraint of the document store: `_id` is unique in each collection. -/
def UniqueIds (w : World) : Prop :=
  (w.users.map (fun u => u._id)).Nodup ∧ (w.posts.map (fun p => p._id)).Nodup

/-- No two stored users share an email. -/
def UniqueEmails (w : World) : Prop :=
  (w.users.map (fun u => u.email)).Nodup

instance (w : World) : Decidable (Consistent w) := by
  unfold Consistent
  infer_instance

instance (w : World) : Decidable (UniqueIds w) := by
  unfold UniqueIds
  infer_instance

instance (w : World) : Decidable (UniqueEmails w) := by
  unfold UniqueEmails
  infer_instance

/-! ## Sample data -/

def alice : User :=
  { _id := "u1", email := "alice@example.com", password := Bcrypt.hash "s3cret",
    name := "Alice", status := "I am new!", posts := ["p1"] }

def bob : User :=
  { _id := "u2", email := "bob@example.com", password := Bcrypt.hash "hunter2",
    name := "Bob", status := "I am new!", posts := [] }

def alicePost : Post :=
  { _id := "p1", title := "Hello world", content := "First post",
    imageUrl := "images/a.png", creator := "u1", createdAt := 100, updatedAt := 100 }

/-- Two users and one post of the first. -/
def sampleWorld : World :=
  { users := [alice, bob], posts := [alicePost], unlinked := [], trace := [] }

/-- A post whose `creator` reference matches no stored user. -/
def orphanPost : Post :=
  { _id := "p7", title := "Left behind", content := "No owner record",
    imageUrl := "images/o.png", creator := "u9", createdAt := 50, updatedAt := 50 }

def orphanWorld : World :=
  { users := [alice, bob], posts := [orphanPost], unlinked := [], trace := [] }

/-- A post of Alice created at the given instant. -/
def mkPost (id : ObjectId) (createdAt : Nat) : Post :=
  { _id := id, title := "Hello world", content := "First post",
    imageUrl := "images/a.png", creator := "u1", createdAt := createdAt,
    updatedAt := createdAt }

/-- Five posts, stored in no particular order of creation. -/
def fiveWorld : World :=
  { users := [{ alice with posts := ["p3", "p1", "p5", "p2", "p4"] }, bob],
    posts := [mkPost "p3" 300, mkPost "p1" 100, mkPost "p5" 500, mkPost "p2" 200,
              mkPost "p4" 400],
    unlinked := [], trace := [] }

def sampleInput : PostInputData :=
  { title := "A new title", content := "Some content", imageUrl := "images/b.png" }

/-- An update that supplies no new image. -/
def keepImageInput : PostInputData :=
  { title := "A new title", content := "Some content", imageUrl := "undefined" }

/-- A valid REST request of Alice for a post identifier that is not stored. -/
def missingPostRequest : FeedRequest :=
  { postId := "p404", userId := some "u1", valid := true, title := "A new title",
    content := "Some content", image := some "images/a.png", file := none }

/-- A title of five code points, the last of them the presentation selector U+FE0F. -/
def selectorInput : PostInputData :=
  { title := "abcd\uFE0F", content := "Some content", imageUrl := "images/b.png" }

/-! ## Theorems -/

open Resolvers

/-- C1: with `req.isAuth` false, each of `createPost`, `posts`, `post`, `updatePost`,
`deletePost`, `user` and `updateStatus` throws the error "Not authenticated" with code
401 and leaves the world as it was: users, posts, the scheduled image deletions and
the trace of store operations (no read and no write was issued). -/
theorem unauthenticated_resolvers_fail_401 (w : World) (req : Req)
    (h : req.isAuth = false) (now : Nat) (newId postId : ObjectId)
    (postInput : PostInputData) (page : Option Int) (status : String) :
    createPost now newId postInput req w
        = ⟨.error { message := "Not authenticated", code := some 401 }, w⟩ ∧
    posts page req w = ⟨.error { message := "Not authenticated", code := some 401 }, w⟩ ∧
    post postId req w = ⟨.error { message := "Not authenticated", code := some 401 }, w⟩ ∧
    updatePost now postId postInput req w
        = ⟨.error { message := "Not authenticated", code := some 401 }, w⟩ ∧
    deletePost postId req w
        = ⟨.error { message := "Not authenticated", code := some 401 }, w⟩ ∧
    user req w = ⟨.error { message := "Not authenticated", code := some 401 }, w⟩ ∧
    updateStatus status req w
        = ⟨.error { message := "Not authenticated", code := some 401 }, w⟩ := by
  simp [createPost, posts, post, updatePost, deletePost, user, updateStatus, h,
    notAuthenticated]

theorem unauthenticated_resolvers_fail_401_witness :
    (⟨false, some "u1"⟩ : Req).isAuth = false ∧
    (createPost 7 "p2" sampleInput ⟨false, some "u1"⟩ sampleWorld
        = ⟨.error { message := "Not authenticated", code := some 401 }, sampleWorld⟩ ∧
    posts (some 1) ⟨false, some "u1"⟩ sampleWorld
        = ⟨.error { message := "Not authenticated", code := some 401 }, sampleWorld⟩ ∧
    post "p1" ⟨false, some "u1"⟩ sampleWorld
        = ⟨.error { message := "Not authenticated", code := some 401 }, sampleWorld⟩ ∧
    updatePost 7 "p1" sampleInput ⟨false, some "u1"⟩ sampleWorld
        = ⟨.error { message := "Not authenticated", code := some 401 }, sampleWorld⟩ ∧
    deletePost "p1" ⟨false, some "u1"⟩ sampleWorld
        = ⟨.error { message := "Not authenticated", code := some 401 }, sampleWorld⟩ ∧
    user ⟨false, some "u1"⟩ sampleWorld
        = ⟨.error { message := "Not authenticated", code := some 401 }, sampleWorld⟩ ∧
    updateStatus "busy" ⟨false, some "u1"⟩ sampleWorld
        = ⟨.error { message := "Not authenticated", code := some 401 }, sampleWorld⟩) :=
  ⟨rfl, unauthenticated_resolvers_fail_401 sampleWorld ⟨false, some "u1"⟩ rfl 7 "p2" "p1"
    sampleInput (some 1) "busy"⟩

/-- C2 fails on the code for `updatePost`: in a store whose post `p7` names a creator
that is not a stored user, `updatePost` by another authenticated user finds the post,
`populate` leaves `creator` null, and the ownership check reads `post.creator._id`
without a guard: a `TypeError` without a code is thrown, not the error "Not
authorized" with code 403. On the same store and for the same caller the sibling
`deletePost`, which compares the stored reference, does throw code 403. Neither call
changes users, posts or scheduled image deletions. -/
theorem updatePost_orphan_creator_not_403 :
    Post.findById orphanWorld.posts "p7" = some orphanPost ∧
    "u2" ≠ orphanPost.creator ∧
    User.findById orphanWorld.users (some orphanPost.creator) = none ∧
    (updatePost 7 "p7" sampleInput ⟨true, some "u2"⟩ orphanWorld).result
      = .error { message := "Cannot read properties of null (reading '_id')",
                 code := none } ∧
    (¬ ∃ e, (updatePost 7 "p7" sampleInput ⟨true, some "u2"⟩ orphanWorld).result = .error e ∧
        e.code = some 403) ∧
    (deletePost "p7" ⟨true, some "u2"⟩ orphanWorld).result
      = .error { message := "Not authorized", code := some 403 } ∧
    (updatePost 7 "p7" sampleInput ⟨true, some "u2"⟩ orphanWorld).world
      = { orphanWorld with trace := [.postFindById "p7", .populate ["u9"]] } ∧
    (deletePost "p7" ⟨true, some "u2"⟩ orphanWorld).world
      = { orphanWorld with trace := [.postFindById "p7"] } := by
  refine ⟨by decide, by decide, by decide, by decide, ?_, by decide, by decide, by decide⟩
  rintro ⟨e, he, hcode⟩
  have hr : (updatePost 7 "p7" sampleInput ⟨true, some "u2"⟩ orphanWorld).result
      = .error (typeError "null (reading '_id')") := by decide
  rw [hr] at he
  cases he
  simp [typeError] at hcode

/-- The ownership check where it works: let `p` be the post stored under `postId` and
let the context be authenticated with a user identifier different from `p.creator`.
Then `deletePost` throws "Not authorized" with code 403, and so does `updatePost` for
every input provided `p.creator` is a stored user (the populated creator is not null).
In both cases users, posts and scheduled image deletions are unchanged; the only store
operations issued are the read of the post (and its populate for `updatePost`). -/
theorem nonowner_update_delete_fail_403 (w : World) (p : Post) (postId : ObjectId)
    (req : Req) (userId : String) (now : Nat) (postInput : PostInputData)
    (hp : Post.findById w.posts postId = some p) (hauth : req.isAuth = true)
    (huid : req.userId = some userId) (hne : userId ≠ p.creator) :
    ((User.findById w.users (some p.creator)).isSome = true →
      (updatePost now postId postInput req w).result
          = .error { message := "Not authorized", code := some 403 } ∧
      (updatePost now postId postInput req w).world
          = { w with trace := w.trace ++ [.postFindById postId, .populate [p.creator]] }) ∧
    (deletePost postId req w).result
        = .error { message := "Not authorized", code := some 403 } ∧
    (deletePost postId req w).world
        = { w with trace := w.trace ++ [.postFindById postId] } := by
  refine ⟨?_, ?_, ?_⟩
  · intro hc
    obtain ⟨c, hc⟩ := Option.isSome_iff_exists.mp hc
    have hcid : c._id = p.creator := by
      have := List.find?_some hc
      simpa using this
    have hne2 : ¬ p.creator = userId := fun h => hne h.symm
    simp [updatePost, hauth, World.log, hp, hc, huid, hcid, hne2, notAuthorized]
  · have hne2 : ¬ p.creator = userId := fun h => hne h.symm
    simp [deletePost, hauth, World.log, hp, huid, hne2, notAuthorized]
  · have hne2 : ¬ p.creator = userId := fun h => hne h.symm
    simp [deletePost, hauth, World.log, hp, huid, hne2]

theorem nonowner_update_delete_fail_403_witness :
    Post.findById sampleWorld.posts "p1" = some alicePost ∧
    (⟨true, some "u2"⟩ : Req).isAuth = true ∧
    (⟨true, some "u2"⟩ : Req).userId = some "u2" ∧ "u2" ≠ alicePost.creator ∧
    (User.findById sampleWorld.users (some alicePost.creator)).isSome = true ∧
    (updatePost 7 "p1" sampleInput ⟨true, some "u2"⟩ sampleWorld).result
        = .error { message := "Not authorized", code := some 403 } ∧
    (updatePost 7 "p1" sampleInput ⟨true, some "u2"⟩ sampleWorld).world
        = { sampleWorld with
            trace := sampleWorld.trace ++ [.postFindById "p1", .populate [alicePost.creator]] } ∧
    (deletePost "p1" ⟨true, some "u2"⟩ sampleWorld).result
        = .error { message := "Not authorized", code := some 403 } ∧
    (deletePost "p1" ⟨true, some "u2"⟩ sampleWorld).world
        = { sampleWorld with trace := sampleWorld.trace ++ [.postFindById "p1"] } :=
  have h := nonowner_update_delete_fail_403 sampleWorld alicePost "p1" ⟨true, some "u2"⟩
    "u2" 7 sampleInput (by decide) rfl rfl (by decide)
  ⟨by decide, rfl, rfl, by decide, by decide, (h.1 (by decide)).1, (h.1 (by decide)).2,
    h.2.1, h.2.2⟩

/-- C3 fails on the code: `login` signs with `process.env.JWT_SECRET`, the middleware
verifies with the literal `"somesupersecretsecret"`. With `JWT_SECRET` set to
`"anothersecret"`, Alice logs in with her password at second 1000 and receives a
token and her user id `u1`; the token, presented one second later as
`Authorization: Bearer <token>`, leaves the request unauthenticated. With
`JWT_SECRET` set to the literal itself the same request is authenticated as `u1`. -/
theorem login_token_rejected_under_other_secret :
    (login Bcrypt.compare (Jwt.sign 1000) (some "anothersecret") "alice@example.com"
        "s3cret" sampleWorld).result
      = .ok { token := "1000,4600,u1,alice@example.com~HS256(anothersecret;1000,4600,u1,alice@example.com)",
              userId := "u1" } ∧
    Middlewares.auth (Jwt.verify 1001)
        (some ("Bearer " ++
          "1000,4600,u1,alice@example.com~HS256(anothersecret;1000,4600,u1,alice@example.com)"))
      = .ok { req := { isAuth := false, userId := none }, next := [none] } ∧
    (login Bcrypt.compare (Jwt.sign 1000) (some "somesupersecretsecret") "alice@example.com"
        "s3cret" sampleWorld).result
      = .ok { token := "1000,4600,u1,alice@example.com~HS256(somesupersecretsecret;1000,4600,u1,alice@example.com)",
              userId := "u1" } ∧
    Middlewares.auth (Jwt.verify 1001)
        (some ("Bearer " ++
          "1000,4600,u1,alice@example.com~HS256(somesupersecretsecret;1000,4600,u1,alice@example.com)"))
      = .ok { req := { isAuth := true, userId := some "u1" }, next := [none] } := by
  decide

/-- The run of the identity middleware in terms of the token expression
`authHeader.split(" ")[1]`. -/
theorem auth_run_of_bearerToken (verify : String → String → Except JsError (Option JwtPayload))
    (authHeader : Option String) :
    ∃ run, Middlewares.auth verify authHeader = .ok run ∧ run.next = [none] ∧
      (run.req.isAuth = true ↔
        ∃ h t payload, authHeader = some h ∧ bearerToken h = some t ∧
          verify t "somesupersecretsecret" = .ok (some payload)) ∧
      (∀ h t payload, authHeader = some h → bearerToken h = some t →
          verify t "somesupersecretsecret" = .ok (some payload) →
          run.req.userId = payload.userId) ∧
      (run.req.isAuth = false → run.req.userId = none) := by
  cases authHeader with
  | none => exact ⟨_, rfl, rfl, by simp, by simp, by simp⟩
  | some h =>
    by_cases hl : h.length = 0
    · have hd : h.data = [] := List.length_eq_zero.mp hl
      have hb : bearerToken h = none := by simp [bearerToken, hd, splitChars]
      refine ⟨{ req := { isAuth := false, userId := none }, next := [none] }, ?_, rfl, ?_, ?_, ?_⟩
      · simp [Middlewares.auth, hl]
      · simp [hb]
      · intro h1 t1 p1 hh ht1
        cases hh
        rw [hb] at ht1
        cases ht1
      · simp
    · cases ht : bearerToken h with
      | none =>
        refine ⟨{ req := { isAuth := false, userId := none }, next := [none] }, ?_, rfl, ?_, ?_, ?_⟩
        · simp [Middlewares.auth, hl, ht]
        · simp [ht]
        · intro h1 t1 p1 hh ht1
          cases hh
          rw [ht] at ht1
          cases ht1
        · simp
      | some t =>
        cases hv : verify t "somesupersecretsecret" with
        | error e =>
          refine ⟨{ req := { isAuth := false, userId := none }, next := [none] }, ?_, rfl, ?_, ?_, ?_⟩
          · simp [Middlewares.auth, hl, ht, hv]
          · simp [ht, hv]
          · intro h1 t1 p1 hh ht1 hv1
            cases hh
            rw [ht] at ht1
            cases ht1
            rw [hv] at hv1
            cases hv1
          · simp
        | ok r =>
          cases r with
          | none =>
            refine ⟨{ req := { isAuth := false, userId := none }, next := [none] }, ?_, rfl, ?_, ?_, ?_⟩
            · simp [Middlewares.auth, hl, ht, hv]
            · simp [ht, hv]
            · intro h1 t1 p1 hh ht1 hv1
              cases hh
              rw [ht] at ht1
              cases ht1
              rw [hv] at hv1
              cases hv1
            · simp
          | some payload =>
            refine ⟨{ req := { isAuth := true, userId := payload.userId }, next := [none] },
              ?_, rfl, ?_, ?_, ?_⟩
            · simp [Middlewares.auth, hl, ht, hv]
            · simp [ht, hv]
            · intro h1 t1 p1 hh ht1 hv1
              cases hh
              rw [ht] at ht1
              cases ht1
              rw [hv] at hv1
              cases hv1
              rfl
            · simp

/-! ### The second space-separated field -/

/-- A text without the separator is its own single field. -/
theorem splitChars_of_not_mem (sep : Char) (f : List Char) (h : sep ∉ f) :
    splitChars sep f = [f] := by
  induction f with
  | nil => rfl
  | cons c cs ih =>
    have hc : ¬ c = sep := fun e => h (e ▸ List.mem_cons_self _ _)
    have hcs : sep ∉ cs := fun e => h (List.mem_cons_of_mem _ e)
    simp [splitChars, hc, ih hcs]

/-- The first field ends at the first separator; the other fields are those of the
rest. -/
theorem splitChars_append_sep (sep : Char) (f rest : List Char) (h : sep ∉ f) :
    splitChars sep (f ++ sep :: rest) = f :: splitChars sep rest := by
  induction f with
  | nil => simp [splitChars]
  | cons c cs ih =>
    have hc : ¬ c = sep := fun e => h (e ▸ List.mem_cons_self _ _)
    have hcs : sep ∉ cs := fun e => h (List.mem_cons_of_mem _ e)
    simp [splitChars, hc, ih hcs]

/-- Every text is a separator-free field, alone or followed by a separator and a rest. -/
theorem exists_first_field (sep : Char) (cs : List Char) :
    ∃ f, sep ∉ f ∧ (cs = f ∨ ∃ rest, cs = f ++ sep :: rest) := by
  induction cs with
  | nil => exact ⟨[], by simp, Or.inl rfl⟩
  | cons c cs ih =>
    by_cases hc : c = sep
    · exact ⟨[], by simp, Or.inr ⟨cs, by simp [hc]⟩⟩
    · obtain ⟨f, hf, hcase⟩ := ih
      refine ⟨c :: f, ?_, ?_⟩
      · intro hmem
        rcases List.mem_cons.mp hmem with e | e
        · exact hc e.symm
        · exact hf e
      · rcases hcase with e | ⟨rest, e⟩
        · exact Or.inl (by rw [e])
        · exact Or.inr ⟨rest, by rw [e]; rfl⟩

/-- The token expression `authHeader.split(" ")[1]` is `t` exactly when the header is
a space-free first field, one space, the space-free text `t`, and then either nothing
or a space and any rest. -/
theorem bearerToken_eq_some_iff (h t : String) :
    bearerToken h = some t ↔
      ∃ f0, ' ' ∉ f0 ∧ ' ' ∉ t.data ∧
        (h.data = f0 ++ ' ' :: t.data ∨ ∃ rest, h.data = f0 ++ ' ' :: (t.data ++ ' ' :: rest)) := by
  constructor
  · intro hb
    obtain ⟨f0, hf0, hcase⟩ := exists_first_field ' ' h.data
    rcases hcase with e | ⟨r, e⟩
    · simp [bearerToken, e, splitChars_of_not_mem ' ' f0 hf0] at hb
    · obtain ⟨f1, hf1, hcase1⟩ := exists_first_field ' ' r
      rcases hcase1 with e1 | ⟨rest, e1⟩
      · have hsplit : splitChars ' ' h.data = [f0, f1] := by
          rw [e, splitChars_append_sep ' ' f0 r hf0, e1, splitChars_of_not_mem ' ' f1 hf1]
        have ht : t = String.mk f1 := by
          simpa [bearerToken, hsplit] using hb.symm
        subst ht
        exact ⟨f0, hf0, hf1, Or.inl (by rw [e, e1])⟩
      · have hsplit : splitChars ' ' h.data = f0 :: f1 :: splitChars ' ' rest := by
          rw [e, splitChars_append_sep ' ' f0 r hf0, e1,
            splitChars_append_sep ' ' f1 rest hf1]
        have ht : t = String.mk f1 := by
          simpa [bearerToken, hsplit] using hb.symm
        subst ht
        exact ⟨f0, hf0, hf1, Or.inr ⟨rest, by rw [e, e1]⟩⟩
  · rintro ⟨f0, hf0, ht, e | ⟨rest, e⟩⟩
    · have hsplit : splitChars ' ' h.data = [f0, t.data] := by
        rw [e, splitChars_append_sep ' ' f0 t.data hf0, splitChars_of_not_mem ' ' t.data ht]
      simp [bearerToken, hsplit]
    · have hsplit : splitChars ' ' h.data = f0 :: t.data :: splitChars ' ' rest := by
        rw [e, splitChars_append_sep ' ' f0 _ hf0, splitChars_append_sep ' ' t.data rest ht]
      simp [bearerToken, hsplit]

/-- C4: for every `jwt.verify` and every value of the Authorization header (absent
included) the identity middleware throws nothing and calls `next` exactly once,
without an error argument. `isAuth` is true exactly when the header is present, reads
as a space-free first field, one space and a space-free second field `t`, followed by
nothing or by a space and any rest, and `jwt.verify` of `t` under the middleware's key
returns a truthy payload; `userId` is then the payload's `userId`. In every other
case (no header, a header without a space, a token that does not verify) `isAuth` is
false and `userId` stays unset. -/
theorem auth_only_annotates (verify : String → String → Except JsError (Option JwtPayload))
    (authHeader : Option String) :
    ∃ run, Middlewares.auth verify authHeader = .ok run ∧ run.next = [none] ∧
      (run.req.isAuth = true ↔
        ∃ h f0 t payload, authHeader = some h ∧ ' ' ∉ f0 ∧ ' ' ∉ t.data ∧
          (h.data = f0 ++ ' ' :: t.data ∨
            ∃ rest, h.data = f0 ++ ' ' :: (t.data ++ ' ' :: rest)) ∧
          verify t "somesupersecretsecret" = .ok (some payload)) ∧
      (∀ h f0 t payload, authHeader = some h → ' ' ∉ f0 → ' ' ∉ t.data →
          (h.data = f0 ++ ' ' :: t.data ∨
            ∃ rest, h.data = f0 ++ ' ' :: (t.data ++ ' ' :: rest)) →
          verify t "somesupersecretsecret" = .ok (some payload) →
          run.req.userId = payload.userId) ∧
      (run.req.isAuth = false → run.req.userId = none) ∧
      ((∀ h, authHeader = some h → ' ' ∉ h.data) → run.req.isAuth = false) := by
  obtain ⟨run, hrun, hnext, hiff, huid, hfalse⟩ := auth_run_of_bearerToken verify authHeader
  refine ⟨run, hrun, hnext, ?_, ?_, hfalse, ?_⟩
  · constructor
    · intro hi
      obtain ⟨h, t, payload, hh, hb, hv⟩ := hiff.mp hi
      obtain ⟨f0, hf0, ht, hd⟩ := (bearerToken_eq_some_iff h t).mp hb
      exact ⟨h, f0, t, payload, hh, hf0, ht, hd, hv⟩
    · rintro ⟨h, f0, t, payload, hh, hf0, ht, hd, hv⟩
      exact hiff.mpr ⟨h, t, payload, hh, (bearerToken_eq_some_iff h t).mpr ⟨f0, hf0, ht, hd⟩, hv⟩
  · intro h f0 t payload hh hf0 ht hd hv
    exact huid h t payload hh ((bearerToken_eq_some_iff h t).mpr ⟨f0, hf0, ht, hd⟩) hv
  · intro hns
    cases hi : run.req.isAuth with
    | false => rfl
    | true =>
      exfalso
      obtain ⟨h, t, payload, hh, hb, _⟩ := hiff.mp hi
      obtain ⟨f0, _, _, hd⟩ := (bearerToken_eq_some_iff h t).mp hb
      apply hns h hh
      rcases hd with e | ⟨rest, e⟩ <;> rw [e] <;> simp

/-- The outcome of the authenticated `posts` resolver for page `k ≥ 1`. -/
theorem posts_page_eq (w : World) (req : Req) (k : Nat) (hauth : req.isAuth = true)
    (hk : 1 ≤ k) :
    (posts (some (k : Int)) req w).result
      = .ok { posts := (((sortedPosts w.posts).drop (2 * (k - 1))).take 2).map
                (populate w.users),
              totalPosts := w.posts.length } := by
  have h0 : ¬ (k : Int) = 0 := by omega
  have h1 : ¬ ((k : Int) - 1) * 2 < 0 := by omega
  have h2 : (((k : Int) - 1) * 2).toNat = 2 * (k - 1) := by omega
  simp [posts, hauth, World.log, h0, h1, h2]

/-- An absent page is page 1. -/
theorem posts_page_none (w : World) (req : Req) :
    posts none req w = posts (some 1) req w := by
  simp [posts]

/-- The order of `sortedPosts` is total and transitive, so the result is sorted. -/
theorem sortedPosts_sorted (l : List Post) :
    (sortedPosts l).Sorted (fun a b => b.createdAt ≤ a.createdAt) := by
  haveI : IsTotal Post (fun a b => b.createdAt ≤ a.createdAt) :=
    ⟨fun a b => Nat.le_total b.createdAt a.createdAt⟩
  haveI : IsTrans Post (fun a b => b.createdAt ≤ a.createdAt) :=
    ⟨fun _ _ _ hab hbc => Nat.le_trans hbc hab⟩
  exact List.sorted_insertionSort _ l

theorem sortedPosts_perm (l : List Post) : (sortedPosts l).Perm l :=
  List.perm_insertionSort _ l

/-- C5: for an authenticated context and page `k ≥ 1` (given as `page = k`, or absent
when `k = 1`), the `posts` resolver returns the populated posts at positions
`2*(k-1)` and `2*(k-1)+1` of `sortedPosts w.posts`, a rearrangement of all stored posts
in descending order of `createdAt`, as far as these positions exist: their number is
`min 2 (n - 2*(k-1))` with truncated subtraction, and `totalPosts` is `n`. On page 1
no post left out is newer than a returned one. With `n = 5`, page 1 has 2 items, page
3 has 1 and page 4 has none. -/
theorem posts_pagination (w : World) (req : Req) (page : Option Int) (k : Nat)
    (hauth : req.isAuth = true) (hk : 1 ≤ k)
    (hpage : page = some (k : Int) ∨ (page = none ∧ k = 1)) :
    (sortedPosts w.posts).Perm w.posts ∧
    (sortedPosts w.posts).Sorted (fun a b => b.createdAt ≤ a.createdAt) ∧
    ∃ data, (posts page req w).result = .ok data ∧
      data.posts = (((sortedPosts w.posts).drop (2 * (k - 1))).take 2).map
        (populate w.users) ∧
      (∀ i, i < 2 → data.posts[i]?
        = ((sortedPosts w.posts)[2 * (k - 1) + i]?).map (populate w.users)) ∧
      data.posts.length = min 2 (w.posts.length - 2 * (k - 1)) ∧
      data.totalPosts = w.posts.length ∧
      (k = 1 → ∀ x ∈ (sortedPosts w.posts).take 2, ∀ y ∈ (sortedPosts w.posts).drop 2,
        y.createdAt ≤ x.createdAt) ∧
      (w.posts.length = 5 →
        (k = 1 → data.posts.length = 2) ∧ (k = 3 → data.posts.length = 1) ∧
        (k = 4 → data.posts.length = 0)) := by
  have hlen : (sortedPosts w.posts).length = w.posts.length := (sortedPosts_perm _).length_eq
  have hres : (posts page req w).result
      = .ok { posts := (((sortedPosts w.posts).drop (2 * (k - 1))).take 2).map
                (populate w.users),
              totalPosts := w.posts.length } := by
    rcases hpage with rfl | ⟨rfl, rfl⟩
    · exact posts_page_eq w req k hauth hk
    · rw [posts_page_none]
      exact posts_page_eq w req 1 hauth hk
  have hcount : ((((sortedPosts w.posts).drop (2 * (k - 1))).take 2).map
      (populate w.users)).length = min 2 (w.posts.length - 2 * (k - 1)) := by
    simp [hlen]
  refine ⟨sortedPosts_perm _, sortedPosts_sorted _, _, hres, rfl, ?_, hcount, rfl, ?_, ?_⟩
  · intro i hi
    simp only [List.getElem?_map, List.getElem?_take, hi, if_true, List.getElem?_drop]
  · intro _ x hx y hy
    exact (sortedPosts_sorted w.posts).rel_of_mem_take_of_mem_drop hx hy
  · intro h5
    rw [hcount, h5]
    refine ⟨?_, ?_, ?_⟩ <;> intro hk' <;> subst hk' <;> rfl

theorem posts_pagination_witness :
    (⟨true, some "u2"⟩ : Req).isAuth = true ∧ 1 ≤ 3 ∧
    ((some 3 : Option Int) = some ((3 : Nat) : Int) ∨ ((some 3 : Option Int) = none ∧ 3 = 1)) ∧
    ∃ data, (posts (some 3) ⟨true, some "u2"⟩ fiveWorld).result = .ok data ∧
      data.posts = [populate fiveWorld.users (mkPost "p1" 100)] ∧ data.totalPosts = 5 :=
  have h := posts_pagination fiveWorld ⟨true, some "u2"⟩ (some 3) 3 rfl (by decide)
    (Or.inl rfl)
  ⟨rfl, by decide, Or.inl rfl, by
    obtain ⟨_, _, data, hres, hposts, _, _, htot, _⟩ := h
    exact ⟨data, hres, by rw [hposts]; decide, by rw [htot]; rfl⟩⟩

/-- The counted length never exceeds the number of code points. -/
theorem validatorLength_le (s : String) : validatorLength s ≤ s.length :=
  Nat.sub_le _ _

/-- Without presentation selectors the counted length is the number of code points. -/
theorem validatorLength_eq_length (s : String)
    (h : ∀ c ∈ s.data, isVariationSelector c = false) : validatorLength s = s.length := by
  have hnil : s.data.filter isVariationSelector = [] := by
    apply List.filter_eq_nil_iff.mpr
    intro c hc
    simp [h c hc]
  simp [validatorLength, hnil]

/-- The length test of the validation blocks. -/
theorem isEmpty_or_not_isLength (s : String) :
    (isEmpty s || !isLength s 5) = decide (validatorLength s < 5) := by
  have hle := validatorLength_le s
  by_cases h : validatorLength s < 5
  · have h5 : ¬ 5 ≤ validatorLength s := by omega
    simp [isEmpty, isLength, h, h5]
  · have h5 : 5 ≤ validatorLength s := by omega
    have h0 : ¬ s.length = 0 := by omega
    simp [isEmpty, isLength, h, h5, h0]

/-- The accumulated `errors` of the validation block, by length of the two fields. -/
theorem postInputErrors_eq (title content : String) :
    postInputErrors title content
      = (if validatorLength title < 5 then [(⟨"Title is invalid"⟩ : FieldError)] else []) ++
        (if validatorLength content < 5 then [(⟨"Content is invalid"⟩ : FieldError)] else []) := by
  simp [postInputErrors, isEmpty_or_not_isLength]

/-- The validation of an authenticated `createPost` call in terms of the length that
`validator.isLength` compares. -/
theorem createPost_validation_counted (now : Nat) (newId : ObjectId) (postInput : PostInputData)
    (req : Req) (w : World) (hauth : req.isAuth = true) :
    ((∃ e, (createPost now newId postInput req w).result = .error e ∧ e.code = some 422) ↔
      (validatorLength postInput.title < 5 ∨ validatorLength postInput.content < 5)) ∧
    (∀ e, (createPost now newId postInput req w).result = .error e → e.code = some 422 →
      e.message = "Invalid Input" ∧
      e.data = some
        ((if validatorLength postInput.title < 5 then [(⟨"Title is invalid"⟩ : FieldError)] else []) ++
         (if validatorLength postInput.content < 5 then [(⟨"Content is invalid"⟩ : FieldError)]
          else [])) ∧
      (∀ errors, e.data = some errors →
        ((⟨"Title is invalid"⟩ : FieldError) ∈ errors ↔ validatorLength postInput.title < 5) ∧
        ((⟨"Content is invalid"⟩ : FieldError) ∈ errors ↔ validatorLength postInput.content < 5)) ∧
      (createPost now newId postInput req w).world = w) := by
  have herr := postInputErrors_eq postInput.title postInput.content
  by_cases hbad : validatorLength postInput.title < 5 ∨ validatorLength postInput.content < 5
  · have hpos : 0 < (postInputErrors postInput.title postInput.content).length := by
      rw [herr]
      rcases hbad with h | h <;> simp [h]
    have hout : createPost now newId postInput req w
        = ⟨.error (invalidInput (postInputErrors postInput.title postInput.content)), w⟩ := by
      simp [createPost, hauth, hpos]
    refine ⟨⟨fun _ => hbad, fun _ => ⟨_, by rw [hout], rfl⟩⟩, ?_⟩
    intro e he _
    rw [hout] at he
    cases he
    refine ⟨rfl, by simp [invalidInput, herr], ?_, by rw [hout]⟩
    intro errors hdata
    simp only [invalidInput, herr, Option.some.injEq] at hdata
    subst hdata
    constructor
    · by_cases ht : validatorLength postInput.title < 5 <;>
        by_cases hc : validatorLength postInput.content < 5 <;> simp [ht, hc]
    · by_cases ht : validatorLength postInput.title < 5 <;>
        by_cases hc : validatorLength postInput.content < 5 <;> simp [ht, hc]
  · have ht : ¬ validatorLength postInput.title < 5 := fun h => hbad (Or.inl h)
    have hc : ¬ validatorLength postInput.content < 5 := fun h => hbad (Or.inr h)
    have hnil : postInputErrors postInput.title postInput.content = [] := by
      rw [herr]
      simp [ht, hc]
    have hno : ∀ e, (createPost now newId postInput req w).result = .error e →
        e.code ≠ some 422 := by
      intro e he
      cases hu : User.findById w.users req.userId with
      | none =>
        simp [createPost, hauth, hnil, World.log, hu] at he
        subst he
        simp
      | some u => simp [createPost, hauth, hnil, World.log, hu] at he
    refine ⟨⟨fun ⟨e, he, hcode⟩ => absurd hcode (hno e he), fun h => absurd h hbad⟩, ?_⟩
    intro e he hcode
    exact absurd hcode (hno e he)

/-- C6: for an authenticated `createPost` call, the call throws an error with code 422
exactly when the title or the content has fewer than 5 characters, counted as
`validator.isLength` counts them: code points other than the presentation selectors
U+FE0F and U+FE0E. The error's `data` is then the list holding "Title is invalid" iff
the title is too short, followed by "Content is invalid" iff the content is too short,
and the world is unchanged: no post is persisted, no user touched, no store operation
issued. For a title and a content without these selectors the count is the number of
code points. -/
theorem createPost_validation (now : Nat) (newId : ObjectId) (postInput : PostInputData)
    (req : Req) (w : World) (hauth : req.isAuth = true) :
    ((∃ e, (createPost now newId postInput req w).result = .error e ∧ e.code = some 422) ↔
      (validatorLength postInput.title < 5 ∨ validatorLength postInput.content < 5)) ∧
    (∀ e, (createPost now newId postInput req w).result = .error e → e.code = some 422 →
      e.message = "Invalid Input" ∧
      e.data = some
        ((if validatorLength postInput.title < 5 then [(⟨"Title is invalid"⟩ : FieldError)]
          else []) ++
         (if validatorLength postInput.content < 5 then [(⟨"Content is invalid"⟩ : FieldError)]
          else [])) ∧
      (∀ errors, e.data = some errors →
        ((⟨"Title is invalid"⟩ : FieldError) ∈ errors ↔ validatorLength postInput.title < 5) ∧
        ((⟨"Content is invalid"⟩ : FieldError) ∈ errors ↔
          validatorLength postInput.content < 5)) ∧
      (createPost now newId postInput req w).world = w) ∧
    ((∀ c ∈ postInput.title.data ++ postInput.content.data, isVariationSelector c = false) →
      ((∃ e, (createPost now newId postInput req w).result = .error e ∧ e.code = some 422) ↔
        (postInput.title.length < 5 ∨ postInput.content.length < 5))) := by
  have h := createPost_validation_counted now newId postInput req w hauth
  refine ⟨h.1, h.2, ?_⟩
  intro hsel
  have ht := validatorLength_eq_length postInput.title
    (fun c hc => hsel c (List.mem_append_left _ hc))
  have hc := validatorLength_eq_length postInput.content
    (fun c hc => hsel c (List.mem_append_right _ hc))
  have h1 := h.1
  rw [ht, hc] at h1
  exact h1

theorem createPost_validation_witness :
    (⟨true, some "u1"⟩ : Req).isAuth = true ∧
    (createPost 7 "p2" { title := "abc", content := "", imageUrl := "images/b.png" }
        ⟨true, some "u1"⟩ sampleWorld).result
      = .error { message := "Invalid Input", code := some 422,
                 data := some [⟨"Title is invalid"⟩, ⟨"Content is invalid"⟩] } ∧
    (createPost 7 "p2" { title := "abc", content := "", imageUrl := "images/b.png" }
        ⟨true, some "u1"⟩ sampleWorld).world = sampleWorld ∧
    selectorInput.title.length = 5 ∧ validatorLength selectorInput.title = 4 ∧
    (createPost 7 "p2" selectorInput ⟨true, some "u1"⟩ sampleWorld).result
      = .error { message := "Invalid Input", code := some 422,
                 data := some [⟨"Title is invalid"⟩] } :=
  have h := createPost_validation 7 "p2"
    { title := "abc", content := "", imageUrl := "images/b.png" } ⟨true, some "u1"⟩
    sampleWorld rfl
  ⟨rfl, by decide,
    (h.2.1 { message := "Invalid Input", code := some 422,
             data := some [⟨"Title is invalid"⟩, ⟨"Content is invalid"⟩] }
      (by decide) (by decide)).2.2.2,
    by decide, by decide, by decide⟩

/-! ### Collections with unique identifiers -/

/-- In a collection with unique keys, the lookup by the key of a member finds it. -/
theorem find?_key_of_mem {α : Type} (key : α → ObjectId) (l : List α) (a : α)
    (ha : a ∈ l) (hn : (l.map key).Nodup) :
    l.find? (fun x => key x == key a) = some a := by
  induction l with
  | nil => cases ha
  | cons x xs ih =>
    rw [List.map_cons, List.nodup_cons] at hn
    rcases List.mem_cons.mp ha with rfl | hmem
    · simp
    · have hne : key x ≠ key a := fun h => hn.1 (h ▸ List.mem_map_of_mem key hmem)
      simp [List.find?_cons, hne, ih hmem hn.2]

/-- Removing the first match of a key that occurs nowhere changes nothing. -/
theorem removeOne_key_of_not_mem {α : Type} (key : α → ObjectId) (l : List α)
    (k : ObjectId) (hk : k ∉ l.map key) : removeOne (fun x => key x == k) l = l := by
  induction l with
  | nil => rfl
  | cons x xs ih =>
    simp only [List.map_cons, List.mem_cons, not_or] at hk
    have hne : ¬ key x = k := fun h => hk.1 h.symm
    simp [removeOne, hne, ih hk.2]

/-- With unique keys, removing the first match removes every match. -/
theorem removeOne_key_eq_filter {α : Type} (key : α → ObjectId) (l : List α)
    (k : ObjectId) (hn : (l.map key).Nodup) :
    removeOne (fun x => key x == k) l = l.filter (fun x => key x != k) := by
  induction l with
  | nil => rfl
  | cons x xs ih =>
    rw [List.map_cons, List.nodup_cons] at hn
    by_cases hx : key x = k
    · have hall : xs.filter (fun y => key y != k) = xs := by
        apply List.filter_eq_self.mpr
        intro y hy
        have : key y ≠ k := fun h => hn.1 (hx ▸ h ▸ List.mem_map_of_mem key hy)
        simpa using this
      simp [removeOne, hx, hall]
    · simp [removeOne, hx, ih hn.2]

/-- Replacing the first match of a key that occurs nowhere changes nothing. -/
theorem updateOne_key_of_not_mem {α : Type} (key : α → ObjectId) (f : α → α)
    (l : List α) (k : ObjectId) (hk : k ∉ l.map key) :
    updateOne (fun x => key x == k) f l = l := by
  induction l with
  | nil => rfl
  | cons x xs ih =>
    simp only [List.map_cons, List.mem_cons, not_or] at hk
    have hne : ¬ key x = k := fun h => hk.1 h.symm
    simp [updateOne, hne, ih hk.2]

/-- With unique keys, replacing the first match replaces every match. -/
theorem updateOne_key_eq_map {α : Type} (key : α → ObjectId) (f : α → α) (l : List α)
    (k : ObjectId) (hn : (l.map key).Nodup) :
    updateOne (fun x => key x == k) f l = l.map (fun x => if key x = k then f x else x) := by
  induction l with
  | nil => rfl
  | cons x xs ih =>
    rw [List.map_cons, List.nodup_cons] at hn
    by_cases hx : key x = k
    · have hk : k ∉ xs.map key := hx ▸ hn.1
      have hrest : xs.map (fun y => if key y = k then f y else y) = xs := by
        conv_rhs => rw [← List.map_id xs]
        apply List.map_congr_left
        intro y hy
        have : key y ≠ k := fun h => hk (h ▸ List.mem_map_of_mem key hy)
        simp [this]
      simp [updateOne, hx, hrest]
    · simp [updateOne, hx, ih hn.2]

/-- No path through `updatePost` calls `clearImage`. -/
theorem updatePost_unlinked (now : Nat) (postId : ObjectId) (postInput : PostInputData)
    (req : Req) (w : World) :
    (updatePost now postId postInput req w).world.unlinked = w.unlinked := by
  cases ha : req.isAuth with
  | false => simp [updatePost, ha]
  | true =>
    cases hp : Post.findById w.posts postId with
    | none => simp [updatePost, ha, hp, World.log]
    | some p =>
      cases hc : User.findById w.users (some p.creator) with
      | none => simp [updatePost, ha, hp, hc, World.log]
      | some c =>
        cases hu : req.userId with
        | none => simp [updatePost, ha, hp, hc, hu, World.log]
        | some uid =>
          by_cases hne : c._id = uid
          · by_cases hv : 0 < (postInputErrors postInput.title postInput.content).length
            · simp [updatePost, ha, hp, hc, hu, hne, hv, World.log]
            · simp [updatePost, ha, hp, hc, hu, hne, hv, World.log]
          · simp [updatePost, ha, hp, hc, hu, hne, World.log]

/-- C7, as stated, fails: Alice updates her post `p1`, whose stored image is
`images/a.png`, with the new reference `images/b.png`. The call succeeds and the
stored reference is overwritten, yet no deletion of the old image was triggered. -/
theorem updatePost_new_image_triggers_no_deletion :
    (updatePost 7 "p1" sampleInput ⟨true, some "u1"⟩ sampleWorld).result
      = .ok { _id := "p1", title := "A new title", content := "Some content",
              imageUrl := "images/b.png", creator := some alice,
              createdAt := 100, updatedAt := 7 } ∧
    sampleInput.imageUrl ≠ "undefined" ∧
    Post.findById sampleWorld.posts "p1" = some alicePost ∧
    sampleInput.imageUrl ≠ alicePost.imageUrl ∧
    (updatePost 7 "p1" sampleInput ⟨true, some "u1"⟩ sampleWorld).world.posts
      = [{ alicePost with title := "A new title", content := "Some content",
                          imageUrl := "images/b.png", updatedAt := 7 }] ∧
    (updatePost 7 "p1" sampleInput ⟨true, some "u1"⟩ sampleWorld).world.unlinked = [] ∧
    ¬ (updatePost 7 "p1" sampleInput ⟨true, some "u1"⟩ sampleWorld).world.unlinked
        = sampleWorld.unlinked ++ [alicePost.imageUrl] := by
  decide

/-- C7, amended: no `updatePost` resolver call, successful or not, triggers an image
deletion, whether the supplied image reference differs from the stored one, equals it
or is the literal "undefined". The deletion of an old image is triggered by the
`PUT /post-image` handler instead: for an authenticated request that carries a file
and a non-empty `oldPath`, `clearImage(oldPath)` is called exactly once and the
response is 201 with the stored file path. -/
theorem updatePost_never_clears_upload_does (now : Nat) (postId : ObjectId)
    (postInput : PostInputData) (req : Req) (w : World) (path oldPath : String)
    (hold : oldPath.length ≠ 0) :
    (updatePost now postId postInput req w).world.unlinked = w.unlinked ∧
    App.putPostImage { isAuth := true, file := some path, oldPath := some oldPath } w
      = ({ status := 201, message := some "File stored", filePath := some path },
         { w with unlinked := w.unlinked ++ [oldPath] }) := by
  refine ⟨updatePost_unlinked now postId postInput req w, ?_⟩
  simp [App.putPostImage, App.postImage, hold, clearImage]

theorem updatePost_never_clears_upload_does_witness :
    ("images/a.png" : String).length ≠ 0 ∧
    (updatePost 7 "p1" sampleInput ⟨true, some "u1"⟩ sampleWorld).world.unlinked
      = sampleWorld.unlinked ∧
    App.putPostImage
        { isAuth := true, file := some "images/b.png", oldPath := some "images/a.png" }
        sampleWorld
      = ({ status := 201, message := some "File stored", filePath := some "images/b.png" },
         { sampleWorld with unlinked := sampleWorld.unlinked ++ ["images/a.png"] }) :=
  ⟨by decide,
    updatePost_never_clears_upload_does 7 "p1" sampleInput ⟨true, some "u1"⟩ sampleWorld
      "images/b.png" "images/a.png" (by decide)⟩

/-- The run of `deletePost` by the owner of a stored post, in a store with unique
identifiers. -/
theorem deletePost_owner_eq (w : World) (u : User) (p : Post) (req : Req)
    (hu : u ∈ w.users) (hp : p ∈ w.posts) (hc : p.creator = u._id)
    (hauth : req.isAuth = true) (huid : req.userId = some u._id)
    (hnp : (w.posts.map (fun q => q._id)).Nodup)
    (hnu : (w.users.map (fun v => v._id)).Nodup) :
    deletePost p._id req w
      = ⟨.ok true,
          { users := w.users.map (fun v =>
              if v._id = u._id then { u with posts := pull u.posts p._id } else v),
            posts := w.posts.filter (fun q => q._id != p._id),
            unlinked := w.unlinked ++ [p.imageUrl],
            trace := w.trace ++ [.postFindById p._id, .postRemove p._id,
              .userFindById (some u._id), .userSave u._id] }⟩ := by
  have hfp : Post.findById w.posts p._id = some p :=
    find?_key_of_mem (fun q : Post => q._id) w.posts p hp hnp
  have hfu : User.findById w.users (some u._id) = some u :=
    find?_key_of_mem (fun v : User => v._id) w.users u hu hnu
  have hrm : Post.findByIdAndRemove w.posts p._id = w.posts.filter (fun q => q._id != p._id) :=
    removeOne_key_eq_filter (fun q : Post => q._id) w.posts p._id hnp
  have hsave : User.save { u with posts := pull u.posts p._id } w.users
      = w.users.map (fun v =>
          if v._id = u._id then { u with posts := pull u.posts p._id } else v) :=
    updateOne_key_eq_map (fun v : User => v._id) (fun _ => { u with posts := pull u.posts p._id })
      w.users u._id hnu
  simp [deletePost, hauth, huid, World.log, hfp, hc, clearImage, hfu, hrm, hsave]

/-- C8: in a store with unique identifiers, let `u` be a stored user and `p` a stored
post with creator `u`. Then `deletePost(p)` in the authenticated context of `u` returns
true, and afterwards: (i) `p` is absent and the `post` resolver for its identifier
throws "No post found" with code 404 for every authenticated context; (ii) the
identifier of `p` occurs in no post set stored under the identifier of `u`; (iii) the
posts are the old ones without `p`, in the old order, and every user stored under
another identifier is unchanged; (iv) exactly one image deletion was scheduled, that
of `p.imageUrl`. -/
theorem deletePost_by_owner (w : World) (u : User) (p : Post) (req : Req)
    (hu : u ∈ w.users) (hp : p ∈ w.posts) (hc : p.creator = u._id)
    (hauth : req.isAuth = true) (huid : req.userId = some u._id)
    (hnp : (w.posts.map (fun q => q._id)).Nodup)
    (hnu : (w.users.map (fun v => v._id)).Nodup) :
    (deletePost p._id req w).result = .ok true ∧
    -- (i)
    p ∉ (deletePost p._id req w).world.posts ∧
    (∀ q ∈ (deletePost p._id req w).world.posts, q._id ≠ p._id) ∧
    (∀ req1 : Req, req1.isAuth = true →
      (post p._id req1 (deletePost p._id req w).world).result
        = .error { message := "No post found", code := some 404 }) ∧
    -- (ii)
    User.findById (deletePost p._id req w).world.users (some u._id)
      = some { u with posts := pull u.posts p._id } ∧
    (∀ v ∈ (deletePost p._id req w).world.users, v._id = u._id → p._id ∉ v.posts) ∧
    -- (iii)
    (deletePost p._id req w).world.posts = w.posts.filter (fun q => q ≠ p) ∧
    (∀ q, q ≠ p → (q ∈ (deletePost p._id req w).world.posts ↔ q ∈ w.posts)) ∧
    (deletePost p._id req w).world.users
      = w.users.map (fun v => if v = u then { u with posts := pull u.posts p._id } else v) ∧
    (∀ v, v._id ≠ u._id → (v ∈ (deletePost p._id req w).world.users ↔ v ∈ w.users)) ∧
    -- (iv)
    (deletePost p._id req w).world.unlinked = w.unlinked ++ [p.imageUrl] := by
  rw [deletePost_owner_eq w u p req hu hp hc hauth huid hnp hnu]
  have hinjp := List.inj_on_of_nodup_map hnp
  have hinju := List.inj_on_of_nodup_map hnu
  have hpull : p._id ∉ pull u.posts p._id := by simp [pull]
  refine ⟨rfl, ?_, ?_, ?_, ?_, ?_, ?_, ?_, ?_, ?_, rfl⟩
  · simp
  · intro q hq
    simpa using (List.mem_filter.mp hq).2
  · intro req1 h1
    have hnone : Post.findById (w.posts.filter (fun q => q._id != p._id)) p._id = none := by
      simp [Post.findById, List.find?_eq_none]
    simp [post, h1, World.log, hnone, noPostFound]
  · have hmem : ({ u with posts := pull u.posts p._id } : User) ∈
        w.users.map (fun v =>
          if v._id = u._id then { u with posts := pull u.posts p._id } else v) :=
      List.mem_map.mpr ⟨u, hu, by simp⟩
    have hkeys : (w.users.map (fun v =>
        if v._id = u._id then { u with posts := pull u.posts p._id } else v)).map
          (fun v => v._id) = w.users.map (fun v => v._id) := by
      rw [List.map_map]
      apply List.map_congr_left
      intro v _
      by_cases hv : v._id = u._id <;> simp [hv]
    exact find?_key_of_mem (fun v : User => v._id) _ { u with posts := pull u.posts p._id } hmem
      (hkeys ▸ hnu)
  · intro v hv hvid
    obtain ⟨x, hx, rfl⟩ := List.mem_map.mp hv
    by_cases hxu : x._id = u._id
    · simpa [hxu] using hpull
    · simp [hxu] at hvid
  · apply List.filter_congr
    intro q hq
    by_cases hqp : q = p
    · simp [hqp]
    · have : q._id ≠ p._id := fun h => hqp (hinjp hq hp h)
      simp [hqp, this]
  · intro q hqp
    constructor
    · intro hq
      exact (List.mem_filter.mp hq).1
    · intro hq
      have : q._id ≠ p._id := fun h => hqp (hinjp hq hp h)
      exact List.mem_filter.mpr ⟨hq, by simpa using this⟩
  · apply List.map_congr_left
    intro v hv
    by_cases hvu : v = u
    · simp [hvu]
    · have : v._id ≠ u._id := fun h => hvu (hinju hv hu h)
      simp [hvu, this]
  · intro v hvid
    constructor
    · intro hv
      obtain ⟨x, hx, rfl⟩ := List.mem_map.mp hv
      by_cases hxu : x._id = u._id
      · simp [hxu] at hvid
      · simpa [hxu] using hx
    · intro hv
      exact List.mem_map.mpr ⟨v, hv, by simp [hvid]⟩

theorem deletePost_by_owner_witness :
    alice ∈ sampleWorld.users ∧ alicePost ∈ sampleWorld.posts ∧
    alicePost.creator = alice._id ∧ (⟨true, some "u1"⟩ : Req).isAuth = true ∧
    (⟨true, some "u1"⟩ : Req).userId = some alice._id ∧
    (sampleWorld.posts.map (fun q => q._id)).Nodup ∧
    (sampleWorld.users.map (fun v => v._id)).Nodup ∧
    (deletePost alicePost._id ⟨true, some "u1"⟩ sampleWorld).result = .ok true ∧
    alicePost ∉ (deletePost alicePost._id ⟨true, some "u1"⟩ sampleWorld).world.posts ∧
    (deletePost alicePost._id ⟨true, some "u1"⟩ sampleWorld).world.unlinked
      = sampleWorld.unlinked ++ [alicePost.imageUrl] :=
  have h := deletePost_by_owner sampleWorld alice alicePost ⟨true, some "u1"⟩ (by decide)
    (by decide) rfl rfl rfl (by decide) (by decide)
  ⟨by decide, by decide, rfl, rfl, rfl, by decide, by decide, h.1, h.2.1,
    h.2.2.2.2.2.2.2.2.2.2⟩

/-- C9 fails on the code: for every unauthenticated `PUT /post-image` request the
handler throws an error whose `code` is 401 and whose `statusCode` was never set; the
error handling middleware reads `statusCode`, so the response has status 500, not 401.
No image deletion is triggered. -/
theorem putPostImage_unauthenticated_status_500 (file oldPath : Option String) (w : World) :
    (App.postImage { isAuth := false, file := file, oldPath := oldPath } w).result
      = .error { message := "Not authenticated", code := some 401, statusCode := none } ∧
    App.putPostImage { isAuth := false, file := file, oldPath := oldPath } w
      = ({ status := 500, message := some "Not authenticated" }, w) ∧
    (App.putPostImage { isAuth := false, file := file, oldPath := oldPath } w).1.status
      ≠ 401 := by
  simp [App.putPostImage, App.postImage, App.errorHandler, notAuthenticated]

/-- C10 fails on the code: the `updateStatus` resolver has no validation. Called by
Alice (authenticated, stored, status "I am new!") with the empty string, it returns
her record with the empty status and persists it; no error is thrown. -/
theorem updateStatus_empty_status_persisted :
    User.findById sampleWorld.users (some "u1") = some alice ∧
    alice.status = "I am new!" ∧
    (updateStatus "" ⟨true, some "u1"⟩ sampleWorld).result
      = .ok { alice with status := "" } ∧
    (updateStatus "" ⟨true, some "u1"⟩ sampleWorld).world.users
      = [{ alice with status := "" }, bob] := by
  decide

/-- The accumulated `errors` of `createUser`, by the two checks. -/
theorem userInputErrors_eq (isEmail : String → Bool) (email password : String) :
    userInputErrors isEmail email password
      = (if isEmail email = false then [(⟨"Invalid Email"⟩ : FieldError)] else []) ++
        (if validatorLength password < 5 then [(⟨"Password too short"⟩ : FieldError)] else []) := by
  simp [userInputErrors, isEmpty_or_not_isLength]

/-- The three ways `createUser` ends. -/
theorem createUser_cases (isEmail : String → Bool) (hash : String → String)
    (newId : ObjectId) (userInput : UserInputData) (w : World) :
    ((isEmail userInput.email = false ∨ validatorLength userInput.password < 5) ∧
      createUser isEmail hash newId userInput w
        = ⟨.error (invalidInput (userInputErrors isEmail userInput.email userInput.password)),
            w⟩) ∨
    (isEmail userInput.email = true ∧ 5 ≤ validatorLength userInput.password ∧
      (∃ u ∈ w.users, u.email = userInput.email) ∧
      createUser isEmail hash newId userInput w
        = ⟨.error { message := "User already exists" },
            { w with trace := w.trace ++ [.userFindOne userInput.email] }⟩) ∨
    (isEmail userInput.email = true ∧ 5 ≤ validatorLength userInput.password ∧
      (∀ u ∈ w.users, u.email ≠ userInput.email) ∧
      createUser isEmail hash newId userInput w
        = ⟨.ok (newUser hash newId userInput),
            { w with
              users := w.users ++ [newUser hash newId userInput],
              trace := w.trace ++ [.userFindOne userInput.email, .userInsert newId] }⟩) := by
  have herr := userInputErrors_eq isEmail userInput.email userInput.password
  by_cases he : isEmail userInput.email = false
  · left
    refine ⟨Or.inl he, ?_⟩
    have hpos : 0 < (userInputErrors isEmail userInput.email userInput.password).length := by
      rw [herr]
      simp [he]
    simp [createUser, hpos]
  · by_cases hpw : validatorLength userInput.password < 5
    · left
      refine ⟨Or.inr hpw, ?_⟩
      have hpos : 0 < (userInputErrors isEmail userInput.email userInput.password).length := by
        rw [herr]
        simp [hpw]
      simp [createUser, hpos]
    · right
      have he1 : isEmail userInput.email = true := by simpa using he
      have hnil : userInputErrors isEmail userInput.email userInput.password = [] := by
        rw [herr]
        simp [he1, hpw]
      cases hf : User.findOne w.users userInput.email with
      | some u =>
        left
        have hmem := List.mem_of_find?_eq_some hf
        have hemail : u.email = userInput.email := by
          have := List.find?_some hf
          simpa using this
        refine ⟨he1, by omega, ⟨u, hmem, hemail⟩, ?_⟩
        simp [createUser, hnil, World.log, hf]
      | none =>
        right
        have hall : ∀ u ∈ w.users, u.email ≠ userInput.email := by
          intro u hu
          have := List.find?_eq_none.mp hf u hu
          simpa using this
        refine ⟨he1, by omega, hall, ?_⟩
        simp [createUser, hnil, World.log, hf]

/-- Email uniqueness and the two failure modes of `createUser`, in terms of the length
that `validator.isLength` compares. -/
theorem createUser_email_uniqueness_counted (isEmail : String → Bool) (hash : String → String)
    (newId : ObjectId) (userInput : UserInputData) (w : World) (hun : UniqueEmails w) :
    UniqueEmails (createUser isEmail hash newId userInput w).world ∧
    ((∃ u ∈ w.users, u.email = userInput.email) →
      ∃ e, (createUser isEmail hash newId userInput w).result = .error e ∧
        (createUser isEmail hash newId userInput w).world.users = w.users ∧
        (createUser isEmail hash newId userInput w).world.posts = w.posts ∧
        (isEmail userInput.email = true → 5 ≤ validatorLength userInput.password →
          e = { message := "User already exists" })) ∧
    ((isEmail userInput.email = false ∨ validatorLength userInput.password < 5) →
      createUser isEmail hash newId userInput w
        = ⟨.error { message := "Invalid Input", code := some 422,
                    data := some
                      ((if isEmail userInput.email = false then
                          [(⟨"Invalid Email"⟩ : FieldError)] else []) ++
                       (if validatorLength userInput.password < 5 then
                          [(⟨"Password too short"⟩ : FieldError)] else [])) }, w⟩) := by
  have herr := userInputErrors_eq isEmail userInput.email userInput.password
  rcases createUser_cases isEmail hash newId userInput w with
    ⟨hbad, hout⟩ | ⟨he, hpw, hex, hout⟩ | ⟨he, hpw, hall, hout⟩
  · rw [hout]
    refine ⟨hun, ?_, ?_⟩
    · intro _
      refine ⟨_, rfl, rfl, rfl, ?_⟩
      intro he hpw
      rcases hbad with h | h
      · rw [he] at h
        cases h
      · omega
    · intro _
      simp [invalidInput, herr]
  · rw [hout]
    refine ⟨hun, ?_, ?_⟩
    · intro _
      exact ⟨_, rfl, rfl, rfl, fun _ _ => rfl⟩
    · intro hbad
      rcases hbad with h | h
      · rw [he] at h
        cases h
      · omega
  · rw [hout]
    refine ⟨?_, ?_, ?_⟩
    · have hnot : userInput.email ∉ w.users.map (fun u => u.email) := by
        intro hmem
        obtain ⟨u, hu, hue⟩ := List.mem_map.mp hmem
        exact hall u hu hue
      unfold UniqueEmails at hun ⊢
      simp only [List.map_append, List.map_cons, List.map_nil]
      refine List.Nodup.append hun (List.nodup_singleton _) ?_
      intro x hx hx1
      rw [List.mem_singleton] at hx1
      subst hx1
      exact hnot hx
    · rintro ⟨u, hu, hue⟩
      exact absurd hue (hall u hu)
    · intro hbad
      rcases hbad with h | h
      · rw [he] at h
        cases h
      · omega

/-- C11: in a store where no two users share an email, the same holds after every
`createUser` call, whatever its input and outcome. When a user with the input email
is stored the call fails and leaves users and posts unchanged: with the conflict
error "User already exists" if the input passes validation, with the validation error
otherwise, since validation comes first. When the email is not valid or the password
has fewer than 5 characters the call throws "Invalid Input" with code 422 and one
message per failing check (email first), and the world is untouched: no store
operation was issued. Characters are counted as `validator.isLength` counts them: code
points other than the presentation selectors U+FE0F and U+FE0E, which for a password
without these selectors is the number of code points. -/
theorem createUser_email_uniqueness (isEmail : String → Bool) (hash : String → String)
    (newId : ObjectId) (userInput : UserInputData) (w : World) (hun : UniqueEmails w) :
    UniqueEmails (createUser isEmail hash newId userInput w).world ∧
    ((∃ u ∈ w.users, u.email = userInput.email) →
      ∃ e, (createUser isEmail hash newId userInput w).result = .error e ∧
        (createUser isEmail hash newId userInput w).world.users = w.users ∧
        (createUser isEmail hash newId userInput w).world.posts = w.posts ∧
        (isEmail userInput.email = true → 5 ≤ validatorLength userInput.password →
          e = { message := "User already exists" })) ∧
    ((isEmail userInput.email = false ∨ validatorLength userInput.password < 5) →
      createUser isEmail hash newId userInput w
        = ⟨.error { message := "Invalid Input", code := some 422,
                    data := some
                      ((if isEmail userInput.email = false then
                          [(⟨"Invalid Email"⟩ : FieldError)] else []) ++
                       (if validatorLength userInput.password < 5 then
                          [(⟨"Password too short"⟩ : FieldError)] else [])) }, w⟩) ∧
    ((∀ c ∈ userInput.password.data, isVariationSelector c = false) →
      validatorLength userInput.password = userInput.password.length) :=
  have h := createUser_email_uniqueness_counted isEmail hash newId userInput w hun
  ⟨h.1, h.2.1, h.2.2, validatorLength_eq_length userInput.password⟩

theorem createUser_email_uniqueness_witness :
    UniqueEmails sampleWorld ∧
    UniqueEmails (createUser (fun _ => true) Bcrypt.hash "u3"
      { email := "alice@example.com", name := "Alice II", password := "longenough" }
      sampleWorld).world ∧
    (createUser (fun _ => true) Bcrypt.hash "u3"
      { email := "alice@example.com", name := "Alice II", password := "longenough" }
      sampleWorld).result = .error { message := "User already exists" } ∧
    (createUser (fun _ => true) Bcrypt.hash "u3"
      { email := "alice@example.com", name := "Alice II", password := "abcd\uFE0F" }
      sampleWorld).result
      = .error { message := "Invalid Input", code := some 422,
                 data := some [⟨"Password too short"⟩] } :=
  ⟨by decide,
    (createUser_email_uniqueness (fun _ => true) Bcrypt.hash "u3"
      { email := "alice@example.com", name := "Alice II", password := "longenough" }
      sampleWorld (by decide)).1,
    by decide, by decide⟩

/-! ### The slot of the first match -/

/-- A successful lookup splits the collection at the document found: nothing before
it matches, `updateOne` rewrites that slot and `removeOne` drops it. -/
theorem find?_decompose {α : Type} (pr : α → Bool) (l : List α) (a : α)
    (h : l.find? pr = some a) :
    ∃ pre post, l = pre ++ a :: post ∧ (∀ x ∈ pre, pr x = false) ∧ pr a = true ∧
      (∀ f : α → α, updateOne pr f l = pre ++ f a :: post) ∧
      removeOne pr l = pre ++ post := by
  induction l with
  | nil => simp at h
  | cons x xs ih =>
    by_cases hx : pr x = true
    · have hxa : x = a := by simpa [List.find?_cons, hx] using h
      subst hxa
      exact ⟨[], xs, rfl, by simp, hx, fun f => by simp [updateOne, hx],
        by simp [removeOne, hx]⟩
    · have hx0 : pr x = false := by simpa using hx
      have h1 : xs.find? pr = some a := by simpa [List.find?_cons, hx0] using h
      obtain ⟨pre, post, hl, hpre, ha, hupd, hrem⟩ := ih h1
      refine ⟨x :: pre, post, by simp [hl], ?_, ha, ?_, ?_⟩
      · intro y hy
        rcases List.mem_cons.mp hy with rfl | hy
        · exact hx0
        · exact hpre y hy
      · intro f
        simp [updateOne, hx0, hupd f]
      · simp [removeOne, hx0, hrem]

/-- In a collection split at the first match, the lookup finds what the slot holds as
long as it still matches. -/
theorem find?_of_decompose {α : Type} (pr : α → Bool) (pre post : List α) (b : α)
    (hpre : ∀ x ∈ pre, pr x = false) (hb : pr b = true) :
    (pre ++ b :: post).find? pr = some b := by
  induction pre with
  | nil => simp [List.find?_cons, hb]
  | cons x xs ih =>
    have hx : pr x = false := hpre x (List.mem_cons_self _ _)
    have := ih (fun y hy => hpre y (List.mem_cons_of_mem _ hy))
    simpa [List.find?_cons, hx] using this

/-- The document `updatePost` saves over the stored post `p`. -/
theorem updatePost_cases (now : Nat) (postId : ObjectId) (postInput : PostInputData)
    (req : Req) (w : World) :
    (∃ e, (updatePost now postId postInput req w).result = .error e ∧
      (updatePost now postId postInput req w).world.users = w.users ∧
      (updatePost now postId postInput req w).world.posts = w.posts) ∨
    (∃ p p1 v, (updatePost now postId postInput req w).result = .ok v ∧
      Post.findById w.posts postId = some p ∧ req.isAuth = true ∧
      req.userId = some p.creator ∧
      5 ≤ postInput.title.length ∧ 5 ≤ postInput.content.length ∧
      p1._id = p._id ∧ p1.creator = p.creator ∧ p1.createdAt = p.createdAt ∧
      p1.title = postInput.title ∧ p1.content = postInput.content ∧
      p1.imageUrl
        = (if postInput.imageUrl = "undefined" then p.imageUrl else postInput.imageUrl) ∧
      (updatePost now postId postInput req w).world.users = w.users ∧
      (updatePost now postId postInput req w).world.posts
        = updateOne (fun x => x._id == p._id) (fun _ => p1) w.posts) := by
  cases ha : req.isAuth with
  | false => exact Or.inl ⟨notAuthenticated, by simp [updatePost, ha],
      by simp [updatePost, ha], by simp [updatePost, ha]⟩
  | true =>
    cases hp : Post.findById w.posts postId with
    | none =>
      exact Or.inl ⟨noPostFound, by simp [updatePost, ha, hp, World.log],
        by simp [updatePost, ha, hp, World.log], by simp [updatePost, ha, hp, World.log]⟩
    | some p =>
      cases hc : User.findById w.users (some p.creator) with
      | none =>
        exact Or.inl ⟨typeError "null (reading '_id')",
          by simp [updatePost, ha, hp, hc, World.log],
          by simp [updatePost, ha, hp, hc, World.log],
          by simp [updatePost, ha, hp, hc, World.log]⟩
      | some c =>
        have hcid : c._id = p.creator := by
          have := List.find?_some hc
          simpa using this
        cases hu : req.userId with
        | none =>
          exact Or.inl ⟨typeError "undefined (reading 'toString')",
            by simp [updatePost, ha, hp, hc, hu, World.log],
            by simp [updatePost, ha, hp, hc, hu, World.log],
            by simp [updatePost, ha, hp, hc, hu, World.log]⟩
        | some uid =>
          by_cases hne : c._id = uid
          · by_cases hv : 0 < (postInputErrors postInput.title postInput.content).length
            · exact Or.inl ⟨invalidInput (postInputErrors postInput.title postInput.content),
                by simp [updatePost, ha, hp, hc, hu, hne, hv, World.log],
                by simp [updatePost, ha, hp, hc, hu, hne, hv, World.log],
                by simp [updatePost, ha, hp, hc, hu, hne, hv, World.log]⟩
            · right
              have hlen : 5 ≤ postInput.title.length ∧ 5 ≤ postInput.content.length := by
                rw [postInputErrors_eq] at hv
                have ht := validatorLength_le postInput.title
                have hc := validatorLength_le postInput.content
                by_cases h1 : validatorLength postInput.title < 5
                · simp [h1] at hv
                · by_cases h2 : validatorLength postInput.content < 5
                  · simp [h2] at hv
                  · omega
              refine ⟨p, { p with
                  title := postInput.title, content := postInput.content,
                  imageUrl := if postInput.imageUrl ≠ "undefined" then postInput.imageUrl
                    else p.imageUrl,
                  updatedAt :=
                    if postInput.title ≠ p.title ∨ postInput.content ≠ p.content ∨
                        (if postInput.imageUrl ≠ "undefined" then postInput.imageUrl
                          else p.imageUrl) ≠ p.imageUrl
                    then now else p.updatedAt }, ?_⟩
              refine ⟨_, by simp [updatePost, ha, hp, hc, hu, hne, hv, World.log]; rfl,
                rfl, rfl, ?_, hlen.1, hlen.2, rfl, rfl, rfl, rfl, rfl, ?_, ?_, ?_⟩
              · rw [← hne, hcid]
              · by_cases hi : postInput.imageUrl = "undefined" <;> simp [hi]
              · simp [updatePost, ha, hp, hc, hu, hne, hv, World.log]
              · simp [updatePost, ha, hp, hc, hu, hne, hv, World.log, Post.save]
          · exact Or.inl ⟨notAuthorized,
              by simp [updatePost, ha, hp, hc, hu, hne, World.log],
              by simp [updatePost, ha, hp, hc, hu, hne, World.log],
              by simp [updatePost, ha, hp, hc, hu, hne, World.log]⟩

/-- C12: let an `updatePost` resolver call succeed. Then the context is that of the
owner of the post `p` stored under `postId`, title and content have at least 5
characters, and afterwards the post stored under `postId` is a document `p1` sitting in
the slot of `p` (`pre` and `post`, all other posts, are as before) with title and
content equal to the inputs, image reference equal to the input unless that is the
literal "undefined", in which case it is that of `p`, and creator, identifier and
`createdAt` those of `p`. The user collection is unchanged. -/
theorem updatePost_success_frame (now : Nat) (postId : ObjectId) (postInput : PostInputData)
    (req : Req) (w : World) (v : PostView)
    (hok : (updatePost now postId postInput req w).result = .ok v) :
    ∃ p p1 pre post,
      Post.findById w.posts postId = some p ∧
      req.isAuth = true ∧ req.userId = some p.creator ∧
      5 ≤ postInput.title.length ∧ 5 ≤ postInput.content.length ∧
      w.posts = pre ++ p :: post ∧
      (updatePost now postId postInput req w).world.posts = pre ++ p1 :: post ∧
      Post.findById (updatePost now postId postInput req w).world.posts postId = some p1 ∧
      p1.title = postInput.title ∧ p1.content = postInput.content ∧
      (postInput.imageUrl ≠ "undefined" → p1.imageUrl = postInput.imageUrl) ∧
      (postInput.imageUrl = "undefined" → p1.imageUrl = p.imageUrl) ∧
      p1.creator = p.creator ∧ p1._id = p._id ∧ p1.createdAt = p.createdAt ∧
      (updatePost now postId postInput req w).world.users = w.users := by
  rcases updatePost_cases now postId postInput req w with
    ⟨e, he, _, _⟩ | ⟨p, p1, v1, _, hp, hauth, huid, ht, hc, hid, hcr, hca, htitle, hcontent,
      himg, husers, hposts⟩
  · rw [he] at hok
    cases hok
  · obtain ⟨pre, post, hl, hpre, hpp, hupd, _⟩ :=
      find?_decompose (fun x : Post => x._id == postId) w.posts p hp
    have hpid : p._id = postId := by simpa using hpp
    have hposts1 : (updatePost now postId postInput req w).world.posts = pre ++ p1 :: post := by
      rw [hposts, hpid]
      exact hupd (fun _ => p1)
    have hp1 : (fun x : Post => x._id == postId) p1 = true := by
      simp [hid, hpid]
    refine ⟨p, p1, pre, post, hp, hauth, huid, ht, hc, hl, hposts1, ?_, htitle, hcontent,
      ?_, ?_, hcr, hid, hca, husers⟩
    · rw [hposts1]
      exact find?_of_decompose (fun x : Post => x._id == postId) pre post p1 hpre hp1
    · intro hne
      rw [himg]
      simp [hne]
    · intro heq
      rw [himg]
      simp [heq]

theorem updatePost_success_frame_witness :
    (updatePost 7 "p1" keepImageInput ⟨true, some "u1"⟩ sampleWorld).result
      = .ok { _id := "p1", title := "A new title", content := "Some content",
              imageUrl := "images/a.png", creator := some alice,
              createdAt := 100, updatedAt := 7 } ∧
    ∃ p p1 pre post,
      Post.findById sampleWorld.posts "p1" = some p ∧
      sampleWorld.posts = pre ++ p :: post ∧
      (updatePost 7 "p1" keepImageInput ⟨true, some "u1"⟩ sampleWorld).world.posts
        = pre ++ p1 :: post ∧
      p1.title = "A new title" ∧ p1.imageUrl = p.imageUrl ∧ p1.creator = p.creator :=
  have hok : (updatePost 7 "p1" keepImageInput ⟨true, some "u1"⟩ sampleWorld).result
      = .ok { _id := "p1", title := "A new title", content := "Some content",
              imageUrl := "images/a.png", creator := some alice,
              createdAt := 100, updatedAt := 7 } := by decide
  ⟨hok, by
    obtain ⟨p, p1, pre, post, hp, _, _, _, _, hl, hposts, _, ht, _, _, himg, hcr, _, _, _⟩ :=
      updatePost_success_frame 7 "p1" keepImageInput ⟨true, some "u1"⟩ sampleWorld _ hok
    exact ⟨p, p1, pre, post, hp, hl, hposts, ht, himg rfl, hcr⟩⟩

/-- C13 fails on the code for the REST controllers: with no post stored under `p404`,
the GraphQL resolvers `updatePost` and `deletePost` throw "No post found" with code
404, but the controllers `updatePost` and `deletePost` of `controllers/feed.js` hand
"Could not find post" with `statusCode` 422 to `next`, which the error handler turns
into a response of status 422. The sibling controller `getPost` uses 404. In all
cases users, posts and scheduled image deletions are unchanged. -/
theorem rest_missing_post_status_422 :
    Post.findById sampleWorld.posts "p404" = none ∧
    (updatePost 7 "p404" sampleInput ⟨true, some "u1"⟩ sampleWorld).result
      = .error { message := "No post found", code := some 404 } ∧
    (deletePost "p404" ⟨true, some "u1"⟩ sampleWorld).result
      = .error { message := "No post found", code := some 404 } ∧
    (FeedController.updatePost 7 missingPostRequest sampleWorld).result
      = .next { message := "Could not find post", statusCode := some 422 } ∧
    (FeedController.deletePost missingPostRequest sampleWorld).result
      = .next { message := "Could not find post", statusCode := some 422 } ∧
    (App.errorHandler { message := "Could not find post", statusCode := some 422 }).status
      = 422 ∧
    (FeedController.getPost missingPostRequest sampleWorld).result
      = .next { message := "Post was not found", statusCode := some 404 } ∧
    (FeedController.updatePost 7 missingPostRequest sampleWorld).world
      = { sampleWorld with trace := [.postFindById "p404"] } ∧
    (FeedController.deletePost missingPostRequest sampleWorld).world
      = { sampleWorld with trace := [.postFindById "p404"] } := by
  decide

/-! ### What each mutation does to the two collections -/

/-- `createPost` either leaves both collections alone or appends the new post and
rewrites the slot of the calling user with the new identifier pushed. -/
theorem createPost_cases (now : Nat) (newId : ObjectId) (postInput : PostInputData)
    (req : Req) (w : World) :
    ((createPost now newId postInput req w).world.users = w.users ∧
      (createPost now newId postInput req w).world.posts = w.posts) ∨
    (∃ u np, User.findById w.users req.userId = some u ∧ np._id = newId ∧
      np.creator = u._id ∧
      (createPost now newId postInput req w).world.posts = w.posts ++ [np] ∧
      (createPost now newId postInput req w).world.users
        = updateOne (fun x => x._id == u._id)
            (fun _ => { u with posts := u.posts ++ [newId] }) w.users) := by
  cases ha : req.isAuth with
  | false => exact Or.inl ⟨by simp [createPost, ha], by simp [createPost, ha]⟩
  | true =>
    by_cases hv : 0 < (postInputErrors postInput.title postInput.content).length
    · exact Or.inl ⟨by simp [createPost, ha, hv], by simp [createPost, ha, hv]⟩
    · cases hf : User.findById w.users req.userId with
      | none =>
        exact Or.inl ⟨by simp [createPost, ha, hv, World.log, hf],
          by simp [createPost, ha, hv, World.log, hf]⟩
      | some u =>
        refine Or.inr ⟨u,
          { _id := newId, title := postInput.title, content := postInput.content,
            imageUrl := postInput.imageUrl, creator := u._id, createdAt := now,
            updatedAt := now }, rfl, rfl, rfl, ?_, ?_⟩
        · simp [createPost, ha, hv, World.log, hf]
        · simp [createPost, ha, hv, World.log, hf, User.save]

/-- `deletePost` either leaves both collections alone, or removes the post found under
`postId`, whose creator is the caller, and then rewrites the slot of the caller with
the identifier pulled; when no user is stored under the caller's identifier the post
is removed and the users stay as they are. -/
theorem deletePost_cases (postId : ObjectId) (req : Req) (w : World) :
    ((deletePost postId req w).world.users = w.users ∧
      (deletePost postId req w).world.posts = w.posts) ∨
    (∃ p, Post.findById w.posts postId = some p ∧ req.userId = some p.creator ∧
      (deletePost postId req w).world.posts = removeOne (fun x => x._id == postId) w.posts ∧
      ((User.findById w.users (some p.creator) = none ∧
          (deletePost postId req w).world.users = w.users) ∨
        (∃ u, User.findById w.users (some p.creator) = some u ∧
          (deletePost postId req w).world.users
            = updateOne (fun x => x._id == u._id)
                (fun _ => { u with posts := pull u.posts postId }) w.users))) := by
  cases ha : req.isAuth with
  | false => exact Or.inl ⟨by simp [deletePost, ha], by simp [deletePost, ha]⟩
  | true =>
    cases hp : Post.findById w.posts postId with
    | none =>
      exact Or.inl ⟨by simp [deletePost, ha, hp, World.log],
        by simp [deletePost, ha, hp, World.log]⟩
    | some p =>
      cases hu : req.userId with
      | none =>
        exact Or.inl ⟨by simp [deletePost, ha, hp, hu, World.log],
          by simp [deletePost, ha, hp, hu, World.log]⟩
      | some uid =>
        by_cases hne : p.creator = uid
        · subst hne
          cases hf : User.findById w.users (some p.creator) with
          | none =>
            refine Or.inr ⟨p, rfl, rfl, ?_, Or.inl ⟨hf, ?_⟩⟩
            · simp [deletePost, ha, hp, hu, World.log, clearImage, hf,
                Post.findByIdAndRemove]
            · simp [deletePost, ha, hp, hu, World.log, clearImage, hf]
          | some u =>
            refine Or.inr ⟨p, rfl, rfl, ?_, Or.inr ⟨u, hf, ?_⟩⟩
            · simp [deletePost, ha, hp, hu, World.log, clearImage, hf,
                Post.findByIdAndRemove]
            · simp [deletePost, ha, hp, hu, World.log, clearImage, hf, User.save]
        · exact Or.inl ⟨by simp [deletePost, ha, hp, hu, hne, World.log],
            by simp [deletePost, ha, hp, hu, hne, World.log]⟩

/-- `updateStatus` leaves the posts alone and at most rewrites the slot of the caller
with the new status. -/
theorem updateStatus_cases (status : String) (req : Req) (w : World) :
    (updateStatus status req w).world.posts = w.posts ∧
    ((updateStatus status req w).world.users = w.users ∨
      (∃ u, User.findById w.users req.userId = some u ∧
        (updateStatus status req w).world.users
          = updateOne (fun x => x._id == u._id) (fun _ => { u with status := status })
              w.users)) := by
  cases ha : req.isAuth with
  | false => exact ⟨by simp [updateStatus, ha], Or.inl (by simp [updateStatus, ha])⟩
  | true =>
    cases hf : User.findById w.users req.userId with
    | none =>
      exact ⟨by simp [updateStatus, ha, hf, World.log],
        Or.inl (by simp [updateStatus, ha, hf, World.log])⟩
    | some u =>
      exact ⟨by simp [updateStatus, ha, hf, World.log],
        Or.inr ⟨u, rfl, by simp [updateStatus, ha, hf, World.log, User.save]⟩⟩

/-! ### Referential consistency under the store writes -/

/-- Consistency only looks at the two collections. -/
theorem Consistent.of_eq {w w1 : World} (hu : w1.users = w.users) (hp : w1.posts = w.posts)
    (h : Consistent w) : Consistent w1 := by
  unfold Consistent at *
  rw [hu, hp]
  exact h

/-- A successful `User.findById` splits the users at the document found. -/
theorem User.findById_decompose (users : List User) (id : Option ObjectId) (u : User)
    (h : User.findById users id = some u) :
    id = some u._id ∧
    ∃ pre post, users = pre ++ u :: post ∧
      ∀ u1 : User, updateOne (fun x => x._id == u._id) (fun _ => u1) users
        = pre ++ u1 :: post := by
  cases id with
  | none => simp [User.findById] at h
  | some i =>
    obtain ⟨pre, post, hl, _, hpu, hupd, _⟩ :=
      find?_decompose (fun x : User => x._id == i) users u h
    have hid : u._id = i := by simpa using hpu
    refine ⟨by rw [hid], pre, post, hl, ?_⟩
    intro u1
    rw [hid]
    exact hupd (fun _ => u1)

/-- Rewriting one user's slot with a document of the same identifier and post set
keeps the collections consistent. -/
theorem consistent_replace_user {w w1 : World} {pre post : List User} {u u1 : User}
    (hw : w.users = pre ++ u :: post) (hw1 : w1.users = pre ++ u1 :: post)
    (hp : w1.posts = w.posts) (hid : u1._id = u._id) (hposts : u1.posts = u.posts)
    (h : Consistent w) : Consistent w1 := by
  obtain ⟨hA, hB⟩ := h
  constructor
  · intro q hq
    rw [hp] at hq
    obtain ⟨x, hx, hxid, hxp⟩ := hA q hq
    rw [hw] at hx
    rw [hw1]
    rcases List.mem_append.mp hx with h1 | h1
    · exact ⟨x, List.mem_append_left _ h1, hxid, hxp⟩
    · rcases List.mem_cons.mp h1 with h2 | h2
      · subst h2
        exact ⟨u1, by simp, by rw [hid, hxid], by rw [hposts]; exact hxp⟩
      · exact ⟨x, by simp [h2], hxid, hxp⟩
  · intro x hx id hidm
    rw [hw1] at hx
    rw [hp]
    rcases List.mem_append.mp hx with h1 | h1
    · exact hB x (by rw [hw]; exact List.mem_append_left _ h1) id hidm
    · rcases List.mem_cons.mp h1 with h2 | h2
      · subst h2
        rw [hposts] at hidm
        obtain ⟨q, hq, hqid, hqc⟩ := hB u (by rw [hw]; simp) id hidm
        exact ⟨q, hq, hqid, by rw [hqc, hid]⟩
      · exact hB x (by rw [hw]; simp [h2]) id hidm

/-- Rewriting one post's slot with a document of the same identifier and creator
keeps the collections consistent. -/
theorem consistent_replace_post {w w1 : World} {pre post : List Post} {p p1 : Post}
    (hw : w.posts = pre ++ p :: post) (hw1 : w1.posts = pre ++ p1 :: post)
    (hu : w1.users = w.users) (hid : p1._id = p._id) (hcr : p1.creator = p.creator)
    (h : Consistent w) : Consistent w1 := by
  obtain ⟨hA, hB⟩ := h
  constructor
  · intro q hq
    rw [hw1] at hq
    rw [hu]
    rcases List.mem_append.mp hq with h1 | h1
    · exact hA q (by rw [hw]; exact List.mem_append_left _ h1)
    · rcases List.mem_cons.mp h1 with h2 | h2
      · subst h2
        obtain ⟨x, hx, hxid, hxp⟩ := hA p (by rw [hw]; simp)
        exact ⟨x, hx, by rw [hxid, hcr], by rw [hid]; exact hxp⟩
      · exact hA q (by rw [hw]; simp [h2])
  · intro x hx id hidm
    rw [hu] at hx
    obtain ⟨q, hq, hqid, hqc⟩ := hB x hx id hidm
    rw [hw] at hq
    rw [hw1]
    rcases List.mem_append.mp hq with h1 | h1
    · exact ⟨q, List.mem_append_left _ h1, hqid, hqc⟩
    · rcases List.mem_cons.mp h1 with h2 | h2
      · subst h2
        exact ⟨p1, by simp, by rw [hid, hqid], by rw [hcr, hqc]⟩
      · exact ⟨q, by simp [h2], hqid, hqc⟩

theorem createUser_consistent (isEmail : String → Bool) (hash : String → String)
    (newId : ObjectId) (userInput : UserInputData) (w : World) (h : Consistent w) :
    Consistent (createUser isEmail hash newId userInput w).world := by
  rcases createUser_cases isEmail hash newId userInput w with
    ⟨_, hout⟩ | ⟨_, _, _, hout⟩ | ⟨_, _, _, hout⟩
  · rw [hout]
    exact h
  · rw [hout]
    exact Consistent.of_eq rfl rfl h
  · rw [hout]
    obtain ⟨hA, hB⟩ := h
    constructor
    · intro q hq
      obtain ⟨x, hx, hxid, hxp⟩ := hA q hq
      exact ⟨x, List.mem_append_left _ hx, hxid, hxp⟩
    · intro x hx id hidm
      rcases List.mem_append.mp hx with h1 | h1
      · exact hB x h1 id hidm
      · rw [List.mem_singleton] at h1
        subst h1
        simp [newUser] at hidm

theorem updateStatus_consistent (status : String) (req : Req) (w : World)
    (h : Consistent w) : Consistent (updateStatus status req w).world := by
  obtain ⟨hposts, husers | ⟨u, hf, husers⟩⟩ := updateStatus_cases status req w
  · exact Consistent.of_eq husers hposts h
  · obtain ⟨_, pre, post, hl, hupd⟩ := User.findById_decompose w.users req.userId u hf
    rw [hupd] at husers
    exact consistent_replace_user hl husers hposts rfl rfl h

theorem updatePost_consistent (now : Nat) (postId : ObjectId) (postInput : PostInputData)
    (req : Req) (w : World) (h : Consistent w) :
    Consistent (updatePost now postId postInput req w).world := by
  rcases updatePost_cases now postId postInput req w with
    ⟨_, _, husers, hposts⟩ | ⟨p, p1, _, _, hp, _, _, _, _, hid, hcr, _, _, _, _, husers,
      hposts⟩
  · exact Consistent.of_eq husers hposts h
  · obtain ⟨pre, post, hl, _, hpp, hupd, _⟩ :=
      find?_decompose (fun x : Post => x._id == postId) w.posts p hp
    have hpid : p._id = postId := by simpa using hpp
    rw [hpid, hupd] at hposts
    exact consistent_replace_post hl hposts husers hid hcr h

theorem createPost_consistent (now : Nat) (newId : ObjectId) (postInput : PostInputData)
    (req : Req) (w : World) (h : Consistent w) :
    Consistent (createPost now newId postInput req w).world := by
  rcases createPost_cases now newId postInput req w with
    ⟨husers, hposts⟩ | ⟨u, np, hf, hnid, hncr, hposts, husers⟩
  · exact Consistent.of_eq husers hposts h
  · obtain ⟨_, pre, post, hl, hupd⟩ := User.findById_decompose w.users req.userId u hf
    rw [hupd] at husers
    have hex : ∃ u1 : User, u1._id = u._id ∧ u1.posts = u.posts ++ [newId] ∧
        (createPost now newId postInput req w).world.users = pre ++ u1 :: post :=
      ⟨{ u with posts := u.posts ++ [newId] }, rfl, rfl, husers⟩
    clear husers hupd
    obtain ⟨u1, hid1, hp1, husers⟩ := hex
    have hu1 : u1 ∈ pre ++ u1 :: post := by simp
    obtain ⟨hA, hB⟩ := h
    constructor
    · intro q hq
      rw [hposts] at hq
      rw [husers]
      rcases List.mem_append.mp hq with h1 | h1
      · obtain ⟨x, hx, hxid, hxp⟩ := hA q h1
        rw [hl] at hx
        rcases List.mem_append.mp hx with h2 | h2
        · exact ⟨x, List.mem_append_left _ h2, hxid, hxp⟩
        · rcases List.mem_cons.mp h2 with h3 | h3
          · rw [h3] at hxid hxp
            exact ⟨u1, hu1, by rw [hid1, hxid], by rw [hp1]; exact List.mem_append_left _ hxp⟩
          · exact ⟨x, by simp [h3], hxid, hxp⟩
      · rw [List.mem_singleton] at h1
        rw [h1]
        exact ⟨u1, hu1, by rw [hid1, hncr], by rw [hp1, hnid]; simp⟩
    · intro x hx id hidm
      rw [husers] at hx
      rw [hposts]
      rcases List.mem_append.mp hx with h1 | h1
      · obtain ⟨q, hq, hqid, hqc⟩ := hB x (by rw [hl]; exact List.mem_append_left _ h1) id hidm
        exact ⟨q, List.mem_append_left _ hq, hqid, hqc⟩
      · rcases List.mem_cons.mp h1 with h2 | h2
        · rw [h2, hp1] at hidm
          rw [h2, hid1]
          rcases List.mem_append.mp hidm with h3 | h3
          · obtain ⟨q, hq, hqid, hqc⟩ := hB u (by rw [hl]; simp) id h3
            exact ⟨q, List.mem_append_left _ hq, hqid, hqc⟩
          · rw [List.mem_singleton] at h3
            exact ⟨np, by simp, by rw [hnid, h3], hncr⟩
        · obtain ⟨q, hq, hqid, hqc⟩ := hB x (by rw [hl]; simp [h2]) id hidm
          exact ⟨q, List.mem_append_left _ hq, hqid, hqc⟩

theorem mem_middle {α : Type} {q a : α} {pre post : List α} :
    q ∈ pre ++ a :: post ↔ q = a ∨ q ∈ pre ++ post := by
  simp only [List.mem_append, List.mem_cons]
  tauto

theorem mem_pull {ids : List ObjectId} {id k : ObjectId} :
    id ∈ pull ids k ↔ id ∈ ids ∧ id ≠ k := by
  simp [pull]

/-- With unique keys, the key of one slot occurs in no other slot. -/
theorem key_ne_of_nodup_middle {α : Type} (key : α → ObjectId) (pre post : List α) (a : α)
    (hn : ((pre ++ a :: post).map key).Nodup) :
    (∀ x ∈ pre ++ post, key x ≠ key a) ∧ ((pre ++ post).map key).Nodup := by
  simp only [List.map_append, List.map_cons] at hn
  have h1 := List.nodup_middle.mp hn
  rw [List.nodup_cons] at h1
  obtain ⟨hnot, hnd⟩ := h1
  constructor
  · intro x hx heq
    apply hnot
    rw [← heq, ← List.map_append]
    exact List.mem_map_of_mem key hx
  · rw [List.map_append]
    exact hnd

theorem deletePost_consistent (postId : ObjectId) (req : Req) (w : World)
    (h : Consistent w) (hun : UniqueIds w) :
    Consistent (deletePost postId req w).world := by
  rcases deletePost_cases postId req w with
    ⟨husers, hposts⟩ | ⟨p, hp, _, hposts, hcase⟩
  · exact Consistent.of_eq husers hposts h
  · obtain ⟨ppre, ppost, hpl, _, hpp, _, hrem⟩ :=
      find?_decompose (fun x : Post => x._id == postId) w.posts p hp
    have hpid : p._id = postId := by simpa using hpp
    rw [hrem] at hposts
    obtain ⟨hA, hB⟩ := h
    obtain ⟨x0, hx0, hx0id, _⟩ := hA p (by rw [hpl]; simp)
    rcases hcase with ⟨hnone, _⟩ | ⟨u, hf, husers⟩
    · exfalso
      have h0 := List.find?_eq_none.mp hnone x0 hx0
      simp [hx0id] at h0
    · obtain ⟨hsome, upre, upost, hul, hupd⟩ :=
        User.findById_decompose w.users (some p.creator) u hf
      have hucr : u._id = p.creator := by
        injection hsome with h1
        exact h1.symm
      rw [hupd] at husers
      have hex : ∃ u1 : User, u1._id = u._id ∧ u1.posts = pull u.posts postId ∧
          (deletePost postId req w).world.users = upre ++ u1 :: upost :=
        ⟨{ u with posts := pull u.posts postId }, rfl, rfl, husers⟩
      clear husers hupd
      obtain ⟨u1, hid1, hp1, husers⟩ := hex
      obtain ⟨hnu, hnp⟩ := hun
      rw [hul] at hnu
      rw [hpl] at hnp
      have hukey := (key_ne_of_nodup_middle (fun x : User => x._id) upre upost u hnu).1
      have hpkey := (key_ne_of_nodup_middle (fun x : Post => x._id) ppre ppost p hnp).1
      constructor
      · intro q hq
        rw [hposts] at hq
        have hqne : q._id ≠ postId := hpid ▸ hpkey q hq
        obtain ⟨x, hx, hxid, hxp⟩ := hA q (by rw [hpl]; exact mem_middle.mpr (Or.inr hq))
        rw [hul] at hx
        rw [husers]
        rcases mem_middle.mp hx with h1 | h1
        · rw [h1] at hxid hxp
          exact ⟨u1, mem_middle.mpr (Or.inl rfl), by rw [hid1, hxid],
            by rw [hp1]; exact mem_pull.mpr ⟨hxp, hqne⟩⟩
        · exact ⟨x, mem_middle.mpr (Or.inr h1), hxid, hxp⟩
      · intro x hx id hidm
        rw [husers] at hx
        rw [hposts]
        rcases mem_middle.mp hx with h1 | h1
        · rw [h1, hp1] at hidm
          obtain ⟨hidu, hidne⟩ := mem_pull.mp hidm
          obtain ⟨q, hq, hqid, hqc⟩ := hB u (by rw [hul]; simp) id hidu
          rw [hpl] at hq
          rcases mem_middle.mp hq with h2 | h2
          · exfalso
            apply hidne
            rw [← hqid, h2, hpid]
          · exact ⟨q, h2, hqid, by rw [hqc, h1, hid1]⟩
        · obtain ⟨q, hq, hqid, hqc⟩ :=
            hB x (by rw [hul]; exact mem_middle.mpr (Or.inr h1)) id hidm
          rw [hpl] at hq
          rcases mem_middle.mp hq with h2 | h2
          · exfalso
            apply hukey x h1
            show x._id = u._id
            rw [← hqc, h2, hucr]
          · exact ⟨q, h2, hqid, hqc⟩

/-! ### The key constraint under the store writes -/

/-- Uniqueness of identifiers only looks at the identifiers in the two collections. -/
theorem UniqueIds.of_map_eq {w w1 : World}
    (hu : w1.users.map (fun u => u._id) = w.users.map (fun u => u._id))
    (hp : w1.posts.map (fun p => p._id) = w.posts.map (fun p => p._id))
    (h : UniqueIds w) : UniqueIds w1 := by
  unfold UniqueIds at *
  rw [hu, hp]
  exact h

theorem map_key_middle {α : Type} (key : α → ObjectId) (pre post : List α) (a b : α)
    (h : key b = key a) : (pre ++ b :: post).map key = (pre ++ a :: post).map key := by
  simp [h]

theorem nodup_append_fresh {α : Type} (key : α → ObjectId) (l : List α) (a : α)
    (hn : (l.map key).Nodup) (hfresh : key a ∉ l.map key) :
    ((l ++ [a]).map key).Nodup := by
  simp only [List.map_append, List.map_cons, List.map_nil]
  refine List.Nodup.append hn (List.nodup_singleton _) ?_
  intro x hx hx1
  rw [List.mem_singleton] at hx1
  subst hx1
  exact hfresh hx

theorem createUser_uniqueIds (isEmail : String → Bool) (hash : String → String)
    (newId : ObjectId) (userInput : UserInputData) (w : World) (h : UniqueIds w)
    (hfresh : newId ∉ w.users.map (fun u => u._id)) :
    UniqueIds (createUser isEmail hash newId userInput w).world := by
  rcases createUser_cases isEmail hash newId userInput w with
    ⟨_, hout⟩ | ⟨_, _, _, hout⟩ | ⟨_, _, _, hout⟩
  · rw [hout]
    exact h
  · rw [hout]
    exact UniqueIds.of_map_eq rfl rfl h
  · rw [hout]
    exact ⟨nodup_append_fresh (fun u : User => u._id) w.users _ h.1 hfresh, h.2⟩

theorem createPost_uniqueIds (now : Nat) (newId : ObjectId) (postInput : PostInputData)
    (req : Req) (w : World) (h : UniqueIds w)
    (hfresh : newId ∉ w.posts.map (fun p => p._id)) :
    UniqueIds (createPost now newId postInput req w).world := by
  rcases createPost_cases now newId postInput req w with
    ⟨husers, hposts⟩ | ⟨u, np, hf, hnid, _, hposts, husers⟩
  · exact UniqueIds.of_map_eq (by rw [husers]) (by rw [hposts]) h
  · obtain ⟨_, pre, post, hl, hupd⟩ := User.findById_decompose w.users req.userId u hf
    rw [hupd] at husers
    constructor
    · have h1 := h.1
      rw [hl] at h1
      rw [husers]
      simpa using h1
    · rw [hposts]
      exact nodup_append_fresh (fun x : Post => x._id) w.posts np h.2
        (by simpa [hnid] using hfresh)

theorem updatePost_uniqueIds (now : Nat) (postId : ObjectId) (postInput : PostInputData)
    (req : Req) (w : World) (h : UniqueIds w) :
    UniqueIds (updatePost now postId postInput req w).world := by
  rcases updatePost_cases now postId postInput req w with
    ⟨_, _, husers, hposts⟩ | ⟨p, p1, _, _, hp, _, _, _, _, hid, _, _, _, _, _, husers,
      hposts⟩
  · exact UniqueIds.of_map_eq (by rw [husers]) (by rw [hposts]) h
  · obtain ⟨pre, post, hl, _, hpp, hupd, _⟩ :=
      find?_decompose (fun x : Post => x._id == postId) w.posts p hp
    have hpid : p._id = postId := by simpa using hpp
    rw [hpid, hupd] at hposts
    refine UniqueIds.of_map_eq (by rw [husers]) ?_ h
    rw [hposts, map_key_middle (fun x : Post => x._id) pre post p p1 hid, ← hl]

theorem updateStatus_uniqueIds (status : String) (req : Req) (w : World)
    (h : UniqueIds w) : UniqueIds (updateStatus status req w).world := by
  obtain ⟨hposts, husers | ⟨u, hf, husers⟩⟩ := updateStatus_cases status req w
  · exact UniqueIds.of_map_eq (by rw [husers]) (by rw [hposts]) h
  · obtain ⟨_, pre, post, hl, hupd⟩ := User.findById_decompose w.users req.userId u hf
    rw [hupd] at husers
    refine UniqueIds.of_map_eq ?_ (by rw [hposts]) h
    rw [husers, hl]
    simp

theorem deletePost_uniqueIds (postId : ObjectId) (req : Req) (w : World)
    (h : UniqueIds w) : UniqueIds (deletePost postId req w).world := by
  rcases deletePost_cases postId req w with
    ⟨husers, hposts⟩ | ⟨p, hp, _, hposts, hcase⟩
  · exact UniqueIds.of_map_eq (by rw [husers]) (by rw [hposts]) h
  · obtain ⟨ppre, ppost, hpl, _, _, _, hrem⟩ :=
      find?_decompose (fun x : Post => x._id == postId) w.posts p hp
    rw [hrem] at hposts
    have hnp : ((ppre ++ ppost).map (fun x : Post => x._id)).Nodup :=
      (key_ne_of_nodup_middle (fun x : Post => x._id) ppre ppost p (hpl ▸ h.2)).2
    rcases hcase with ⟨_, husers⟩ | ⟨u, hf, husers⟩
    · exact ⟨by rw [husers]; exact h.1, by rw [hposts]; exact hnp⟩
    · obtain ⟨_, upre, upost, hul, hupd⟩ :=
        User.findById_decompose w.users (some p.creator) u hf
      rw [hupd] at husers
      refine ⟨?_, by rw [hposts]; exact hnp⟩
      have h1 := h.1
      rw [hul] at h1
      rw [husers]
      simpa using h1

/-- C14: referential consistency of users and posts is preserved by every call of
`createUser`, `createPost`, `updatePost`, `deletePost` and `updateStatus`, successful
or failing, with any arguments and any request context. For `deletePost` the store's
key constraint is used: `_id` is unique in each collection. That constraint is itself
preserved by all five calls, provided the identifier the store assigns to a new
document is not in use. -/
theorem referential_consistency_invariant (w : World) (hc : Consistent w)
    (isEmail : String → Bool) (hash : String → String)
    (newUserId newPostId postId : ObjectId) (userInput : UserInputData)
    (postInput : PostInputData) (now : Nat) (status : String) (req : Req) :
    Consistent (createUser isEmail hash newUserId userInput w).world ∧
    Consistent (createPost now newPostId postInput req w).world ∧
    Consistent (updatePost now postId postInput req w).world ∧
    Consistent (updateStatus status req w).world ∧
    (UniqueIds w →
      Consistent (deletePost postId req w).world ∧
      (newUserId ∉ w.users.map (fun u => u._id) →
        UniqueIds (createUser isEmail hash newUserId userInput w).world) ∧
      (newPostId ∉ w.posts.map (fun p => p._id) →
        UniqueIds (createPost now newPostId postInput req w).world) ∧
      UniqueIds (updatePost now postId postInput req w).world ∧
      UniqueIds (deletePost postId req w).world ∧
      UniqueIds (updateStatus status req w).world) :=
  ⟨createUser_consistent isEmail hash newUserId userInput w hc,
    createPost_consistent now newPostId postInput req w hc,
    updatePost_consistent now postId postInput req w hc,
    updateStatus_consistent status req w hc,
    fun hu =>
      ⟨deletePost_consistent postId req w hc hu,
        createUser_uniqueIds isEmail hash newUserId userInput w hu,
        createPost_uniqueIds now newPostId postInput req w hu,
        updatePost_uniqueIds now postId postInput req w hu,
        deletePost_uniqueIds postId req w hu,
        updateStatus_uniqueIds status req w hu⟩⟩

theorem referential_consistency_invariant_witness :
    Consistent sampleWorld ∧ UniqueIds sampleWorld ∧
    Consistent (createPost 7 "p2" sampleInput ⟨true, some "u1"⟩ sampleWorld).world ∧
    Consistent (deletePost "p1" ⟨true, some "u1"⟩ sampleWorld).world ∧
    (deletePost "p1" ⟨true, some "u1"⟩ sampleWorld).result = .ok true ∧
    (createPost 7 "p2" sampleInput ⟨true, some "u1"⟩ sampleWorld).world.posts.length = 2 :=
  have h := referential_consistency_invariant sampleWorld (by decide) (fun _ => true)
    Bcrypt.hash "u3" "p2" "p1"
    { email := "carol@example.com", name := "Carol", password := "longenough" }
    sampleInput 7 "busy" ⟨true, some "u1"⟩
  ⟨by decide, by decide, h.2.1, (h.2.2.2.2 (by decide)).1, by decide, by decide⟩

end BlogApp
